import Mathlib

/-!
# Verification of the metamorphic argumentation-testing harness

A shallow embedding, in Lean 4, of the core of a metamorphic-testing harness
for abstract argumentation frameworks (AFs): the AF data model, the AF
generators and metamorphic transformations (`af_utils.py`), the verification
engine (`VerificationSuite.py`) and the orchestrator loop body
(`LLM_tester.py`).  Python functions are translated into executable Lean
definitions; Python exceptions become `Except`/`Option` values; Python dicts
keyed by check name become ordered association lists.

The external `py_arg` library (the `Argument` / `Defeat` /
`AbstractArgumentationFramework` classes and the conflict-freeness predicate)
is not part of the repository; those pieces are modelled from the spec, as
noted on each definition.
-/

namespace AFHarness

/-! ## Decimal representation toolkit

The transformation engine derives fresh argument names by appending the
decimal representation of a counter, and the generators name arguments
`A1`, `A2`, ….  The following lemmas establish that `Nat.repr` is injective,
which is what makes those names pairwise distinct.
-/

theorem digitChar_inj {a b : Nat} (ha : a < 10) (hb : b < 10)
    (h : Nat.digitChar a = Nat.digitChar b) : a = b := by
  interval_cases a <;> interval_cases b <;> revert h <;> decide

theorem toDigitsCore_eq_digits (fuel : Nat) : ∀ (n : Nat) (ds : List Char),
    0 < n → n < 10 ^ fuel →
    Nat.toDigitsCore 10 fuel n ds = ((Nat.digits 10 n).map Nat.digitChar).reverse ++ ds := by
  induction fuel with
  | zero => intro n ds hpos hlt; simp at hlt; omega
  | succ f ih =>
    intro n ds hpos hlt
    have hdig : Nat.digits 10 n = n % 10 :: Nat.digits 10 (n / 10) :=
      Nat.digits_def' (by norm_num) hpos
    by_cases hdiv : n / 10 = 0
    · have hsmall : Nat.digits 10 (n / 10) = [] := by rw [hdiv]; simp
      rw [Nat.toDigitsCore]
      simp [hdiv, hdig, hsmall]
    · have hposdiv : 0 < n / 10 := Nat.pos_of_ne_zero hdiv
      have hltdiv : n / 10 < 10 ^ f := by
        have : n < 10 ^ f * 10 := by
          calc n < 10 ^ (f + 1) := hlt
          _ = 10 ^ f * 10 := by ring
        exact Nat.div_lt_iff_lt_mul (by norm_num) |>.mpr this
      rw [Nat.toDigitsCore]
      simp only [hdiv, if_false]
      rw [ih (n / 10) _ hposdiv hltdiv, hdig]
      simp

theorem toDigits_eq_of_pos {n : Nat} (h : 0 < n) :
    Nat.toDigits 10 n = ((Nat.digits 10 n).map Nat.digitChar).reverse := by
  have hlt : n < 10 ^ (n + 1) := by
    calc n < 10 ^ n := Nat.lt_pow_self (by norm_num) n
    _ ≤ 10 ^ (n + 1) := Nat.pow_le_pow_right (by norm_num) (Nat.le_succ n)
  simpa using toDigitsCore_eq_digits (n + 1) n [] h hlt

theorem digits_map_digitChar_inj : ∀ {l1 l2 : List Nat},
    (∀ x ∈ l1, x < 10) → (∀ x ∈ l2, x < 10) →
    l1.map Nat.digitChar = l2.map Nat.digitChar → l1 = l2
  | [], [], _, _, _ => rfl
  | [], _ :: _, _, _, h => by simp at h
  | _ :: _, [], _, _, h => by simp at h
  | a :: l1, b :: l2, h1, h2, h => by
    simp only [List.map_cons, List.cons.injEq] at h
    have hab : a = b :=
      digitChar_inj (h1 a (by simp)) (h2 b (by simp)) h.1
    have htl : l1 = l2 :=
      digits_map_digitChar_inj (fun x hx => h1 x (by simp [hx]))
        (fun x hx => h2 x (by simp [hx])) h.2
    rw [hab, htl]

theorem nat_repr_injective : Function.Injective Nat.repr := by
  intro m n h
  have hlist : Nat.toDigits 10 m = Nat.toDigits 10 n := by
    have hd := congrArg String.data h
    simpa [Nat.repr, List.asString] using hd
  rcases Nat.eq_zero_or_pos m with hm | hm
  · rcases Nat.eq_zero_or_pos n with hn | hn
    · rw [hm, hn]
    · subst hm
      rw [toDigits_eq_of_pos hn] at hlist
      have : Nat.digits 10 n = [0] := by
        have h0 : ([ '0' ] : List Char) = ((Nat.digits 10 n).map Nat.digitChar).reverse := hlist
        have := congrArg List.reverse h0
        simp at this
        have hmap : (Nat.digits 10 n).map Nat.digitChar = [Nat.digitChar 0] := by
          simpa using this.symm
        exact digits_map_digitChar_inj
          (fun x hx => Nat.digits_lt_base (by norm_num) hx)
          (by intro x hx; simp at hx; omega)
          (by simpa using hmap)
      have hn0 : n = 0 := by
        have := Nat.ofDigits_digits 10 n
        rw [this.symm, ‹Nat.digits 10 n = [0]›]
        simp [Nat.ofDigits]
      omega
  · rcases Nat.eq_zero_or_pos n with hn | hn
    · subst hn
      rw [toDigits_eq_of_pos hm] at hlist
      have : Nat.digits 10 m = [0] := by
        have h0 : ((Nat.digits 10 m).map Nat.digitChar).reverse = ([ '0' ] : List Char) := hlist
        have := congrArg List.reverse h0
        simp at this
        exact digits_map_digitChar_inj
          (fun x hx => Nat.digits_lt_base (by norm_num) hx)
          (by intro x hx; simp at hx; omega)
          (by simpa using this)
      have hm0 : m = 0 := by
        have := Nat.ofDigits_digits 10 m
        rw [this.symm, ‹Nat.digits 10 m = [0]›]
        simp [Nat.ofDigits]
      omega
    · rw [toDigits_eq_of_pos hm, toDigits_eq_of_pos hn] at hlist
      have hmap := List.reverse_injective hlist
      have hdig := digits_map_digitChar_inj
        (fun x hx => Nat.digits_lt_base (by norm_num) hx)
        (fun x hx => Nat.digits_lt_base (by norm_num) hx) hmap
      exact Nat.digits_inj_iff.mp hdig

theorem string_data_inj {s t : String} (h : s.data = t.data) : s = t := by
  cases s; cases t; exact congrArg String.mk h

theorem string_append_left_inj (p : String) {s t : String}
    (h : p ++ s = p ++ t) : s = t := by
  apply string_data_inj
  have hd := congrArg String.data h
  simp only [String.data_append] at hd
  exact List.append_cancel_left hd

/-! ## AF data model

Modelled from the spec: the `Argument` / `Defeat` /
`AbstractArgumentationFramework` classes live in the external `py_arg`
library.  Per the spec an Argument is an immutable name (equal iff names are
equal), a Defeat is an ordered pair of argument names, and an AF is a named
collection of arguments and defeats exposing derived per-argument
ingoing/outgoing queries.
-/

/-- Modelled from the spec: `py_arg`'s `AbstractArgumentationFramework`.
Arguments are identified with their names, defeats with (attacker, target)
name pairs. -/
structure AF where
  name : String
  arguments : List String
  defeats : List (String × String)
deriving Repr, DecidableEq

/-- Modelled from the spec: `af.is_in_arguments(name)` — membership of a name
in the AF's argument collection. -/
def AF.is_in_arguments (af : AF) (n : String) : Bool :=
  af.arguments.contains n

/-- Modelled from the spec: the derived per-argument ingoing-attacker query
(`argument.get_ingoing_defeat_arguments`), as a list of attacker names. -/
def AF.attackersOf (af : AF) (t : String) : List String :=
  (af.defeats.filter (fun d => d.2 == t)).map (fun d => d.1)

/-- The AF invariant from the spec's data model: argument names are unique
within an AF and every defeat's endpoints are members of the argument
collection. -/
def AF.WellFormed (af : AF) : Prop :=
  af.arguments.Nodup ∧
    ∀ d ∈ af.defeats, d.1 ∈ af.arguments ∧ d.2 ∈ af.arguments

instance : DecidablePred AF.WellFormed := fun af => by
  unfold AF.WellFormed; infer_instance

/-! ## AF generators (`af_utils.py`)

Each generator takes the integer size `n` (Python `int`, hence `Int` here)
and either raises `ValueError` (an `Except.error`) or returns the AF.
Python's `Argument(f"A{i+1}")` becomes `aname (i+1)`, and list indexing
`args[i]` is resolved to the name the generator stored at index `i`.
-/

def aname (k : Nat) : String := "A" ++ Nat.repr k

def bname (k : Nat) : String := "B" ++ Nat.repr k

def dname (k : Nat) : String := "D" ++ Nat.repr k

/-- `generate_no_conflict` from `af_utils.py`. -/
def generate_no_conflict (n : Int) : Except String AF :=
  if n ≤ 0 then .error "Number of arguments n must be positive."
  else .ok ⟨"No-Conflict (n=" ++ toString n ++ ")",
    (List.range n.toNat).map (fun i => aname (i + 1)), []⟩

/-- `generate_linear_attack_chain` from `af_utils.py`: `args[i]` attacks
`args[i+1]` for `i = 0 .. n-2`. -/
def generate_linear_attack_chain (n : Int) : Except String AF :=
  if n < 2 then .error "Linear Attack Chain requires at least 2 arguments."
  else .ok ⟨"Linear-Attack-Chain (n=" ++ toString n ++ ")",
    (List.range n.toNat).map (fun i => aname (i + 1)),
    (List.range (n.toNat - 1)).map (fun i => (aname (i + 1), aname (i + 2)))⟩

/-- `generate_cycle` from `af_utils.py`: `args[i]` attacks `args[(i+1) % n]`. -/
def generate_cycle (n : Int) : Except String AF :=
  if n < 2 then .error "Cycle requires at least 2 arguments."
  else .ok ⟨"Cycle (n=" ++ toString n ++ ")",
    (List.range n.toNat).map (fun i => aname (i + 1)),
    (List.range n.toNat).map (fun i => (aname (i + 1), aname ((i + 1) % n.toNat + 1)))⟩

/-- `generate_single_target_multiple_attackers` from `af_utils.py`. -/
def generate_single_target_multiple_attackers (n : Int) : Except String AF :=
  if n < 2 then .error "This structure requires at least 1 attacker (n >= 2)."
  else .ok ⟨"Single-Target-Multiple-Attackers (n=" ++ toString n ++ ")",
    "T" :: (List.range (n.toNat - 1)).map (fun i => aname (i + 1)),
    (List.range (n.toNat - 1)).map (fun i => (aname (i + 1), "T"))⟩

/-- `generate_single_attack_multiple_defenders` from `af_utils.py`. -/
def generate_single_attack_multiple_defenders (n : Int) : Except String AF :=
  if n < 3 then .error "This structure requires at least 1 defender (n >= 3)."
  else .ok ⟨"Single-Attack-Multiple-Defenders (n=" ++ toString n ++ ")",
    "T" :: "Att" :: (List.range (n.toNat - 2)).map (fun i => dname (i + 1)),
    ("Att", "T") :: (List.range (n.toNat - 2)).map (fun i => (dname (i + 1), "Att"))⟩

/-- `generate_disconnected_symmetric_pairs` from `af_utils.py`: the loop over
`range(num_pairs)` extends the argument list with `[A(i+1), B(i+1)]` and the
defeat list with the two mutual attacks. -/
def generate_disconnected_symmetric_pairs (n : Int) : Except String AF :=
  if n < 2 ∨ n % 2 ≠ 0 then .error "Number of arguments n must be an even number at least 2."
  else .ok ⟨"Disconnected-Symmetric-Pairs (n=" ++ toString n ++ ")",
    (List.range (n.toNat / 2)).flatMap (fun i => [aname (i + 1), bname (i + 1)]),
    (List.range (n.toNat / 2)).flatMap
      (fun i => [(aname (i + 1), bname (i + 1)), (bname (i + 1), aname (i + 1))])⟩

/-! ## Metamorphic transformations (`af_utils.py`) -/

/-- `apply_isomorphism` from `af_utils.py` (with an explicit renaming map;
the Python default is `lambda name: f"X_{name}"`). -/
def apply_isomorphism (af : AF) (r : String → String) : AF × (String → String) :=
  (⟨"isomorphic_" ++ af.name, af.arguments.map r,
    af.defeats.map (fun d => (r d.1, r d.2))⟩, r)

/-- The Python default renaming map of `apply_isomorphism`. -/
def defaultRenaming (n : String) : String := "X_" ++ n

/-- `apply_fundamental_consistency` from `af_utils.py` (the Python default
for `sa_name` is `"SA"`): appends the self-attacking argument, with no
collision check. -/
def apply_fundamental_consistency (af : AF) (sa_name : String) : AF × String :=
  (⟨"fundamental_consistency_" ++ af.name, af.arguments ++ [sa_name],
    af.defeats ++ [(sa_name, sa_name)]⟩, sa_name)

/-- `apply_modularity` from `af_utils.py` (the Python default for `u_name`
is `"U"`): appends the isolated argument, with no collision check. -/
def apply_modularity (af : AF) (u_name : String) : AF × String :=
  (⟨"modularity_" ++ af.name, af.arguments ++ [u_name], af.defeats⟩, u_name)

/-- The candidate defender name after `counter` increments: `"M_Defender"`
first, then `"M_Defender_{counter}"`. -/
def defenderCand (counter : Nat) : String :=
  if counter = 0 then "M_Defender" else "M_Defender_" ++ Nat.repr counter

/-- The collision condition of `apply_defense_dynamics`'s `while` loop:
`af.is_in_arguments(defender_name) or any(defender_name == arg.name for arg
in [attacker, target])`. -/
def ddBlocked (af : AF) (atk tgt n : String) : Bool :=
  af.is_in_arguments n || n == atk || n == tgt

/-- The `while` loop of `apply_defense_dynamics`, made structurally
recursive on a fuel argument.  The caller passes fuel
`af.arguments.length + 3`, which provably suffices to reach an unblocked
candidate, so the out-of-fuel base case is never the value returned on any
input actually used. -/
def defenderLoop (af : AF) (atk tgt : String) : Nat → Nat → String
  | counter, 0 => defenderCand counter
  | counter, fuel + 1 =>
    if ddBlocked af atk tgt (defenderCand counter) then
      defenderLoop af atk tgt (counter + 1) fuel
    else defenderCand counter

/-- `apply_defense_dynamics` from `af_utils.py`.  `random.choice(af.defeats)`
is modelled by an injected index `pick`, reduced modulo the defeat count so
that every pick denotes an existing defeat. -/
def apply_defense_dynamics (af : AF) (pick : Nat) :
    Except String (AF × String × String × String) :=
  match h : af.defeats with
  | [] => .error "Cannot apply Defense Dynamics to an AF with no defeats."
  | d :: ds =>
    let chosen := (d :: ds).get ⟨pick % (d :: ds).length, Nat.mod_lt _ (by simp)⟩
    let atk := chosen.1
    let tgt := chosen.2
    let defName := defenderLoop af atk tgt 0 (af.arguments.length + 3)
    .ok (⟨"defense_dynamics_" ++ af.name, af.arguments ++ [defName],
      af.defeats ++ [(defName, atk)]⟩, defName, atk, tgt)

/-! ## Extension families and the oracle output schema

The oracle returns, per semantics tag, a list of extensions; each extension
is a Python list whose elements are *supposed* to be argument-name strings
but may be arbitrary Python values.  `Value` models exactly the distinctions
the schema checks can observe: a string, a non-string container (for which
Python's `" " in a` is a membership test), or a non-string non-container
(for which `" " in a` raises `TypeError`).
-/

inductive Value where
  | str (s : String)
  | nonStrIterable (hasSpaceMember : Bool)
  | nonStrPlain
deriving Repr, DecidableEq

def Value.isStr : Value → Bool
  | .str _ => true
  | _ => false

/-- Python's `" " in a`: substring test on a string, membership test on a
non-string container, `TypeError` on anything else. -/
def Value.spaceTest : Value → Except Unit Bool
  | .str s => .ok (s.data.contains ' ')
  | .nonStrIterable b => .ok b
  | .nonStrPlain => .error ()

abbrev Extension := List Value

abbrev Family := List Extension

/-- The parsed oracle output: a dict with the four semantics tags.  Fields
are `Option` because a Python dict may lack a key, in which case `.get(tag)`
returns `None`. -/
structure RawFamily where
  GE : Option Family
  CE : Option Family
  PE : Option Family
  SE : Option Family
deriving Repr, DecidableEq

def RawFamily.get (f : RawFamily) (tag : String) : Option Family :=
  if tag = "GE" then f.GE
  else if tag = "CE" then f.CE
  else if tag = "PE" then f.PE
  else if tag = "SE" then f.SE
  else none

/-- The tag iteration order `['GE', 'CE', 'PE', 'SE']` used throughout
`VerificationSuite.py`. -/
def extTypes : List String := ["GE", "CE", "PE", "SE"]

/-- `llm_extensions.items()`: the present tags, in insertion order. -/
def RawFamily.items (f : RawFamily) : List (String × Family) :=
  extTypes.filterMap (fun t => (f.get t).map (fun ls => (t, ls)))

/-! ### Violation dictionaries

A violation report is a Python dict from check identifier to a list of
messages, filled via `violations.setdefault(key, []).append(msg)`; we model
it as an insertion-ordered association list. -/

abbrev VDict := List (String × List String)

def vget : VDict → String → Option (List String)
  | [], _ => none
  | (k', ms) :: rest, k => if k = k' then some ms else vget rest k

def vadd : VDict → String → String → VDict
  | [], k, m => [(k, [m])]
  | (k', ms) :: rest, k, m =>
    if k = k' then (k', ms ++ [m]) :: rest else (k', ms) :: vadd rest k m

def hasKey (d : VDict) (k : String) : Bool := (vget d k).isSome

/-- Python dict merge `{**a, **b}`: keys of `a` in order (values overridden
by `b` where present), then the new keys of `b` in order. -/
def vmerge (a b : VDict) : VDict :=
  a.map (fun p => (p.1, ((vget b p.1).getD p.2))) ++
    b.filter (fun p => (vget a p.1).isNone)

/-! ### Schema checks (`verify_output_schema`, `verify_output_schema_metamorphic`) -/

/-- `any(" " in a for s in ext_sets for a in s)`: short-circuiting, and
raising at the first element for which the test itself raises. -/
def anySpace : List Value → Except Unit Bool
  | [] => .ok false
  | a :: rest =>
    match a.spaceTest with
    | .error e => .error e
    | .ok true => .ok true
    | .ok false => anySpace rest

/-- The same generator when `ext_sets` may be `None` (absent key): iterating
`None` raises `TypeError` before any element is looked at. -/
def anySpaceOpt : Option Family → Except Unit Bool
  | none => .error ()
  | some ls => anySpace ls.flatten

/-- `any(not isinstance(a, str) for s in ext_sets for a in s)` (pure). -/
def hasNonStr (ls : Family) : Bool := ls.flatten.any (fun a => !a.isStr)

def msgSpace : String := "LLM used mathematical notations or text description of the extensions instead of argument names."

def msgNonStr : String := "LLM answers contain members that is not a string."

def msgSVF : String := "Cannot verify the schema for the computed extensions."

/-- The body of `verify_output_schema`s per-tag loop: the first failing
check returns the (one-entry) violation dict. -/
def schemaCheckTag (ext_sets : Option Family) : Option VDict :=
  match anySpaceOpt ext_sets with
  | .error _ => some (vadd [] "SCHEMA-VERIFICATION-FAILED" msgSVF)
  | .ok true => some (vadd [] "SCHEMA-ERROR" msgSpace)
  | .ok false =>
    if hasNonStr (ext_sets.getD []) then some (vadd [] "SCHEMA-ERROR" msgNonStr)
    else none

def schemaLoop (fam : RawFamily) : List String → Option VDict
  | [] => none
  | t :: ts =>
    match schemaCheckTag (fam.get t) with
    | some v => some v
    | none => schemaLoop fam ts

/-- `verify_output_schema` from `VerificationSuite.py`.  `none` models the
Python function running off its end (returning `None`, which is falsy). -/
def verify_output_schema (fam : RawFamily) : Option VDict :=
  schemaLoop fam extTypes

/-- Per-tag body of `verify_output_schema_metamorphic`: the whitespace test
runs on the original family first (short-circuiting `or`), then the
non-string flags for both sides are computed and reported together. -/
def schemaCheckTagMeta (o t : Option Family) : Option VDict :=
  match anySpaceOpt o with
  | .error _ => some (vadd [] "SCHEMA-VERIFICATION-FAILED" msgSVF)
  | .ok true => some (vadd [] "SCHEMA-ERROR" msgSpace)
  | .ok false =>
    match anySpaceOpt t with
    | .error _ => some (vadd [] "SCHEMA-VERIFICATION-FAILED" msgSVF)
    | .ok true => some (vadd [] "SCHEMA-ERROR" msgSpace)
    | .ok false =>
      let i1 := hasNonStr (o.getD [])
      let i2 := hasNonStr (t.getD [])
      let v : VDict := if i1 then vadd [] "SCHEMA-ERROR" msgNonStr else []
      let v := if i2 then vadd v "SCHEMA-ERROR" msgNonStr else v
      if i1 || i2 then some v else none

def schemaLoopMeta (o t : RawFamily) : List String → Option VDict
  | [] => none
  | tag :: ts =>
    match schemaCheckTagMeta (o.get tag) (t.get tag) with
    | some v => some v
    | none => schemaLoopMeta o t ts

/-- `verify_output_schema_metamorphic` from `VerificationSuite.py`. -/
def verify_output_schema_metamorphic (o t : RawFamily) : Option VDict :=
  schemaLoopMeta o t extTypes

/-! ## The verification engine (`VerificationSuite.py`)

Python `frozenset`s of extension elements become `Finset Value`, and sets of
frozensets become `Finset (Finset Value)`.
-/

/-- `{frozenset(s) for s in family}`. -/
def famFinset (ls : Family) : Finset (Finset Value) :=
  (ls.map List.toFinset).toFinset

/-- Modelled from the spec: `af.get_argument(name)` returns the argument or
raises `ValueError` when the name does not resolve; `_str_to_args` therefore
fails on the first unresolvable element.  A non-string element never
resolves (unreachable after the schema check). -/
def resolveValue (af : AF) (v : Value) : Option String :=
  match v with
  | .str s => if af.arguments.contains s then some s else none
  | _ => none

/-- `_str_to_args`: resolve the elements left to right, failing at the first
name that does not resolve. -/
def resolveExt (af : AF) : Extension → Option (List String)
  | [] => some []
  | a :: rest =>
    match resolveValue af a with
    | none => none
    | some s =>
      match resolveExt af rest with
      | none => none
      | some ss => some (s :: ss)

/-- Modelled from the spec: the external conflict-freeness predicate
`is_conflict_free(arg_set, af)` — no member of the set attacks a member of
the set. -/
def is_conflict_free (args : List String) (af : AF) : Bool :=
  !(af.defeats.any (fun d => args.contains d.1 && args.contains d.2))

/-- One iteration of the FP-6 loop body of `verify_fundamental_properties`:
a resolution failure (`ValueError` from `_str_to_args`) or a
conflict-freeness failure appends one `FP-6` message. -/
def fp6Extend (af : AF) (tag : String) (v : VDict) (s : Extension) : VDict :=
  match resolveExt af s with
  | none => vadd v "FP-6" ("FP-6 setup error: Could not verify conflict-freeness (" ++ tag ++ ").")
  | some args =>
    if !(is_conflict_free args af) then
      vadd v "FP-6" ("FP-6 Violation (" ++ tag ++ "): Extension is not conflict-free.")
    else v

/-- The FP-6 loop of `verify_fundamental_properties`, over every extension
of every present tag. -/
def fp6Fold (af : AF) (fam : RawFamily) (v0 : VDict) : VDict :=
  fam.items.foldl (fun v tagFam => tagFam.2.foldl (fp6Extend af tagFam.1) v) v0

/-- The FP-1 .. FP-6 accumulation of `verify_fundamental_properties`
(reached only when the schema check passed). -/
def fpChecks (af : AF) (fam : RawFamily) : VDict :=
  let ge_sets := famFinset (fam.GE.getD [])
  let ce_sets := famFinset (fam.CE.getD [])
  let pe_sets := famFinset (fam.PE.getD [])
  let se_sets := famFinset (fam.SE.getD [])
  let v : VDict := []
  let v := if ¬ ge_sets ⊆ ce_sets then
    vadd v "FP-1" "FP-1 Violation: Grounded extensions are not a subset of Complete extensions" else v
  let v := if ¬ pe_sets ⊆ ce_sets then
    vadd v "FP-2" "FP-2 Violation: Preferred extensions are not a subset of Complete extensions" else v
  let v := if ¬ se_sets ⊆ pe_sets then
    vadd v "FP-3" "FP-3 Violation: Stable extensions are not a subset of Preferred extensions" else v
  let v := if 1 < ge_sets.card then
    vadd v "FP-4" "FP-4 Violation: Expected 1 Grounded extension, but found more" else v
  let v := if pe_sets.card = 0 then
    vadd v "FP-5" "FP-5 Violation: Expected at least 1 Preferred extension, but found none." else v
  fp6Fold af fam v

/-- `verify_fundamental_properties` from `VerificationSuite.py`. -/
def verify_fundamental_properties (af : AF) (fam : RawFamily) : VDict :=
  match verify_output_schema fam with
  | some v => v
  | none => fpChecks af fam

/-- Element-wise application of the renaming map, `renaming_map(arg)` for
the (post-schema, hence string) elements of an extension. -/
def renameValue (r : String → String) : Value → Value
  | .str s => .str (r s)
  | v => v

/-- `verify_isomorphism` from `VerificationSuite.py`. -/
def verify_isomorphism (o t : RawFamily) (r : String → String) : VDict :=
  match verify_output_schema_metamorphic o t with
  | some v => v
  | none =>
    extTypes.foldl (fun v tag =>
      let original_sets := famFinset ((o.get tag).getD [])
      let transformed_sets := famFinset ((t.get tag).getD [])
      let expected := original_sets.image (fun s => s.image (renameValue r))
      if expected ≠ transformed_sets then
        vadd v "MR-ISO" ("MR-ISO Violation (" ++ tag ++ "): renamed original extensions differ from transformed ones")
      else v) []

/-- One iteration of the MR-FC.1 loop: `if sa_name in s` appends one
violation message. -/
def fcExtend (sa_name tag : String) (v : VDict) (s : Extension) : VDict :=
  if Value.str sa_name ∈ s then
    vadd v "MR-FC" ("MR-FC.1 Violation (" ++ tag ++ "): Self-attacking argument appeared in an extension.")
  else v

/-- The MR-FC.1 loop of `verify_fundamental_consistency` over every
extension of every present tag of the transformed family. -/
def fcFold (sa_name : String) (t : RawFamily) : VDict :=
  t.items.foldl (fun v tagFam => tagFam.2.foldl (fcExtend sa_name tagFam.1) v) []

/-- `verify_fundamental_consistency` from `VerificationSuite.py`. -/
def verify_fundamental_consistency (o t : RawFamily) (sa_name : String) : VDict :=
  match verify_output_schema_metamorphic o t with
  | some v => v
  | none =>
    let v := fcFold sa_name t
    let original_ge := famFinset (o.GE.getD [])
    let transformed_ge := famFinset (t.GE.getD [])
    if original_ge ≠ transformed_ge then
      vadd v "MR-FC" "MR-FC.2 Violation (GE): Original GE is not equal to transformed GE."
    else v

/-- `verify_modularity` from `VerificationSuite.py`.  The unique-GE part
takes the first reported GE of each side (`next(iter(...), [])`), defaulting
to the empty extension. -/
def verify_modularity (o t : RawFamily) (u_name : String) : VDict :=
  match verify_output_schema_metamorphic o t with
  | some v => v
  | none =>
    let original_ge_list : Extension := (o.GE.getD []).headD []
    let transformed_ge_list : Extension := (t.GE.getD []).headD []
    let expected_ge_set : Finset Value := (original_ge_list ++ [Value.str u_name]).toFinset
    let v : VDict :=
      if transformed_ge_list.toFinset ≠ expected_ge_set then
        vadd [] "MR-MOD" "MR-MOD Violation (GE): transformed GE differs from original GE plus the new argument"
      else []
    ["CE", "PE", "SE"].foldl (fun v tag =>
      let original_sets := famFinset ((o.get tag).getD [])
      let transformed_sets := famFinset ((t.get tag).getD [])
      let expected_transformed_sets := original_sets.image (fun s => insert (Value.str u_name) s)
      if expected_transformed_sets ≠ transformed_sets then
        vadd v "MR-MOD" ("MR-MOD Violation (" ++ tag ++ "): transformed family differs from the augmented original family")
      else v) v

/-- `verify_defense_dynamics` from `VerificationSuite.py`.  The verifier
receives the (defender, attacker, target) names and, for MR-DD.3, the
target's recorded direct attackers (`target.get_ingoing_defeat_arguments`,
derived from the AF structure). -/
def verify_defense_dynamics (o t : RawFamily) (defender attacker target : String)
    (targetAttackers : List String) : VDict :=
  match verify_output_schema_metamorphic o t with
  | some v => v
  | none =>
    let original_ge_set : Finset Value := ((o.GE.getD [[]]).headD []).toFinset
    let transformed_ge_set : Finset Value := ((t.GE.getD [[]]).headD []).toFinset
    let v : VDict :=
      if Value.str defender ∉ transformed_ge_set then
        vadd [] "MR-DD.1" ("Defender " ++ defender ++ " not in new GE.")
      else []
    let v :=
      if Value.str attacker ∈ transformed_ge_set then
        vadd v "MR-DD.2" ("Attacker " ++ attacker ++ " still in new GE.")
      else v
    if Value.str target ∉ original_ge_set then
      let should_be_reinstated := targetAttackers.all
        (fun a => decide (Value.str a ∉ transformed_ge_set))
      let is_reinstated := decide (Value.str target ∈ transformed_ge_set)
      let v :=
        if should_be_reinstated && !is_reinstated then
          vadd v "MR-DD.3" ("Target " ++ target ++ " was not reinstated into new GE when all its attackers were defeated.")
        else v
      if !should_be_reinstated && is_reinstated then
        vadd v "MR-DD.3" ("Target " ++ target ++ " was reinstated but should not have been.")
      else v
    else v

/-! ## Validity check and the orchestrator loop body (`LLM_tester.py`)

The ground-truth extension calculators (`get_grounded_extension` and
friends) are an external oracle library; per the spec they are pure,
deterministic functions of the AF, so they enter as a parameter. -/

/-- Modelled from the spec: the external ground-truth comparator.  `ge`
returns the single grounded extension (a set of argument names); the other
three return extension families. -/
structure GroundTruth where
  ge : AF → List String
  ce : AF → List (List String)
  pe : AF → List (List String)
  se : AF → List (List String)

/-- The expected family per tag, with the grounded extension wrapped into a
singleton family as in `verify_validity`. -/
def gtFam (g : GroundTruth) (af : AF) (tag : String) : List (List String) :=
  if tag = "GE" then [g.ge af]
  else if tag = "CE" then g.ce af
  else if tag = "PE" then g.pe af
  else g.se af

def famFinsetStr (ls : List (List String)) : Finset (Finset String) :=
  (ls.map List.toFinset).toFinset

def validityLoop (g : GroundTruth) (af : AF) (fam : RawFamily) :
    List String → VDict → Except String VDict
  | [], v => .ok v
  | tag :: ts, v =>
    let ext_sets := (fam.get tag).getD []
    let expected := famFinsetStr (gtFam g af tag)
    match ext_sets.mapM (resolveExt af) with
    | none => Except.error "Argument name not found in the framework."
    | some resolved =>
      let llmSets := famFinsetStr resolved
      let v :=
        if llmSets ≠ expected then
          vadd v ("Invalid " ++ tag) "Expected extensions differ from the reported ones"
        else v
      validityLoop g af fam ts v

/-- `verify_validity` from `VerificationSuite.py` (the returned ground-truth
family, used only for a string rendering in the results, is elided).
`_str_to_args` raising `ValueError` on an unknown name propagates to the
caller as an `Except.error`. -/
def verify_validity (g : GroundTruth) (af : AF) (fam : RawFamily) : Except String VDict :=
  match verify_output_schema fam with
  | some v => .ok v
  | none => validityLoop g af fam extTypes []

/-- Failure modes of one oracle query, per the spec's oracle-client
contract: a timeout after the retry budget, or any other transport error. -/
inductive QErr where
  | timeout (msg : String)
  | generic (msg : String)
deriving Repr, DecidableEq

/-- One cell of the per-pair results dict (the `computed`/`expected`/`info`
fields, which only hold string renderings of data recorded elsewhere, are
elided). -/
structure Entry where
  status : String
  violations : VDict
deriving Repr, DecidableEq

abbrev ColResults := List (String × Entry)

def colLookup : ColResults → String → Option Entry
  | [], _ => none
  | (k, e) :: rest, c => if c = k then some e else colLookup rest c

def columns : List String :=
  ["base", "validity", "isomorphism", "fundamental_consistency", "modularity", "defense_dynamics"]

/-- The all-columns abort of `run_evaluation` when the BASE query times out
or errors. -/
def abortAll (status key msg abortMsg : String) : ColResults :=
  columns.map (fun c =>
    if c = "base" then (c, ⟨status, [(key, [msg])]⟩) else (c, ⟨status, [(key, [abortMsg])]⟩))

/-- `'FAIL' if violations else 'PASS'`. -/
def passFail (v : VDict) : String := if v.isEmpty then "PASS" else "FAIL"

/-- One metamorphic step of `run_evaluation`: query the oracle on the
transformed AF, verify fundamental properties and the metamorphic relation,
and merge the two violation dicts (`{**fp_violations, **mr_violations}`);
a timeout or error yields the corresponding marker entry. -/
def mrStep (oracle : AF → Except QErr RawFamily) (tAf : AF)
    (mr : RawFamily → VDict) : Entry :=
  match oracle tAf with
  | .ok ext =>
    let fpV := verify_fundamental_properties tAf ext
    let allV := vmerge fpV (mr ext)
    ⟨passFail allV, allV⟩
  | .error (.timeout m) => ⟨"Request Timeout", [("TIMEOUT", [m])]⟩
  | .error (.generic m) => ⟨"Error", [("ERROR", [m])]⟩

/-- The body of `run_evaluation`s inner loop for one (class, size) pair,
starting from the already-generated base AF.  `pick` injects the
`random.choice` of `apply_defense_dynamics`.  Mirrors `LLM_tester.py`:
BASE (abort-all on failure), VALIDITY, ISOMORPHISM, FUNDAMENTAL_CONSISTENCY,
MODULARITY, then DEFENSE_DYNAMICS only when the base AF has defeats —
otherwise no `defense_dynamics` entry is recorded at all. -/
def runPair (g : GroundTruth) (oracle : AF → Except QErr RawFamily) (pick : Nat)
    (af : AF) : ColResults :=
  match oracle af with
  | .error (.timeout m) =>
    abortAll "Request Timeout" "TIMEOUT" m "All other tests aborted due to timeout."
  | .error (.generic m) =>
    abortAll "Error" "ERROR" m "All other tests aborted due to unexpected error"
  | .ok base_extensions =>
    let fpV := verify_fundamental_properties af base_extensions
    let validityEntry :=
      match verify_validity g af base_extensions with
      | .ok v => Entry.mk (passFail v) v
      | .error e => Entry.mk "Error" [("ERROR", [e])]
    let iso := apply_isomorphism af defaultRenaming
    let fc := apply_fundamental_consistency af "SA"
    let md := apply_modularity af "U"
    let ddEntries :=
      if af.defeats.isEmpty then []
      else
        match apply_defense_dynamics af pick with
        | .error _ => []
        | .ok (ddAf, defName, atkName, tgtName) =>
          [("defense_dynamics", mrStep oracle ddAf
            (fun ext => verify_defense_dynamics base_extensions ext defName atkName tgtName
              (ddAf.attackersOf tgtName)))]
    [("base", Entry.mk (passFail fpV) fpV),
     ("validity", validityEntry),
     ("isomorphism", mrStep oracle iso.1
        (fun ext => verify_isomorphism base_extensions ext iso.2)),
     ("fundamental_consistency", mrStep oracle fc.1
        (fun ext => verify_fundamental_consistency base_extensions ext fc.2)),
     ("modularity", mrStep oracle md.1
        (fun ext => verify_modularity base_extensions ext md.2))] ++ ddEntries

/-! ## Name lemmas

Distinctness of generated argument names, used for generator well-formedness
and defender-name freshness. -/

theorem repr_length_pos (k : Nat) : 0 < (Nat.repr k).length := by
  rcases Nat.eq_zero_or_pos k with h | h
  · subst h; decide
  · rw [Nat.repr, toDigits_eq_of_pos h]
    have hlen : ∀ l : List Char, (l.asString).length = l.length := fun l => rfl
    rw [hlen]
    simp only [List.length_reverse, List.length_map]
    exact List.length_pos.mpr (Nat.digits_ne_nil_iff_ne_zero.mpr (by omega))

theorem prefixed_inj (p : String) : Function.Injective (fun k => p ++ Nat.repr k) := by
  intro i j h
  exact nat_repr_injective (string_append_left_inj p h)

theorem aname_ne_bname (i j : Nat) : aname i ≠ bname j := by
  intro h
  have hd := congrArg String.data h
  simp [aname, bname, String.data_append] at hd

theorem t_ne_aname (j : Nat) : ("T" : String) ≠ aname j := by
  intro h
  have hd := congrArg String.data h
  simp [aname, String.data_append] at hd

theorem t_ne_dname (j : Nat) : ("T" : String) ≠ dname j := by
  intro h
  have hd := congrArg String.data h
  simp [dname, String.data_append] at hd

theorem att_ne_dname (j : Nat) : ("Att" : String) ≠ dname j := by
  intro h
  have hd := congrArg String.data h
  simp [dname, String.data_append] at hd

theorem anames_nodup (n : Nat) :
    ((List.range n).map (fun i => aname (i + 1))).Nodup := by
  refine List.Nodup.map ?_ (List.nodup_range n)
  intro i j h
  have := prefixed_inj "A" h
  omega

theorem dnames_nodup (n : Nat) :
    ((List.range n).map (fun i => dname (i + 1))).Nodup := by
  refine List.Nodup.map ?_ (List.nodup_range n)
  intro i j h
  have := prefixed_inj "D" h
  omega

/-- The DSP argument list, abbreviated for the lemmas below. -/
def dspArgs (m : Nat) : List String :=
  (List.range m).flatMap (fun i => [aname (i + 1), bname (i + 1)])

theorem mem_dspArgs {m : Nat} {x : String} :
    x ∈ dspArgs m ↔ ∃ i < m, x = aname (i + 1) ∨ x = bname (i + 1) := by
  simp only [dspArgs, List.mem_flatMap, List.mem_range, List.mem_cons,
    List.mem_singleton, List.not_mem_nil, or_false]

theorem dspArgs_nodup (m : Nat) : (dspArgs m).Nodup := by
  induction m with
  | zero => simp [dspArgs]
  | succ k ih =>
    have hsplit : dspArgs (k + 1) = dspArgs k ++ [aname (k + 1), bname (k + 1)] := by
      simp [dspArgs, List.range_succ]
    rw [hsplit, List.nodup_append]
    refine ⟨ih, ?_, ?_⟩
    · simp only [List.nodup_cons, List.mem_singleton, List.nodup_nil]
      exact ⟨aname_ne_bname (k + 1) (k + 1), by simp⟩
    · intro x hx
      rw [mem_dspArgs] at hx
      obtain ⟨i, hi, hcase⟩ := hx
      simp only [List.mem_cons, List.mem_singleton, List.not_mem_nil, or_false]
      rintro (rfl | rfl)
      · rcases hcase with h | h
        · have := prefixed_inj "A" h
          omega
        · exact aname_ne_bname (k + 1) (i + 1) h
      · rcases hcase with h | h
        · exact aname_ne_bname (i + 1) (k + 1) h.symm
        · have := prefixed_inj "B" h
          omega

/-! ## Freshness of the defender name -/

theorem ddBlocked_false_iff (af : AF) (atk tgt s : String) :
    ddBlocked af atk tgt s = false ↔ s ∉ af.arguments ∧ s ≠ atk ∧ s ≠ tgt := by
  simp [ddBlocked, AF.is_in_arguments, and_assoc]

theorem defenderCand_inj : Function.Injective defenderCand := by
  intro i j h
  unfold defenderCand at h
  by_cases hi : i = 0 <;> by_cases hj : j = 0
  · omega
  · exfalso
    rw [if_pos hi, if_neg hj] at h
    have hlen := congrArg String.length h
    have h10 : ("M_Defender").length = 10 := rfl
    have h11 : ("M_Defender_").length = 11 := rfl
    rw [h10, String.length_append, h11] at hlen
    have := repr_length_pos j
    omega
  · exfalso
    rw [if_neg hi, if_pos hj] at h
    have hlen := congrArg String.length h
    have h10 : ("M_Defender").length = 10 := rfl
    have h11 : ("M_Defender_").length = 11 := rfl
    rw [h10, String.length_append, h11] at hlen
    have := repr_length_pos i
    omega
  · rw [if_neg hi, if_neg hj] at h
    exact nat_repr_injective (string_append_left_inj _ h)

/-- Pigeonhole: among the first `|arguments| + 3` candidate defender names,
at least one avoids all `|arguments| + 2` blocked names. -/
theorem exists_unblocked (af : AF) (atk tgt : String) :
    ∃ k, k < af.arguments.length + 3 ∧ ddBlocked af atk tgt (defenderCand k) = false := by
  by_contra hcon
  push_neg at hcon
  have hmem : ∀ k < af.arguments.length + 3,
      defenderCand k ∈ af.arguments ∨ defenderCand k = atk ∨ defenderCand k = tgt := by
    intro k hk
    have hb := hcon k hk
    by_contra hno
    push_neg at hno
    exact hb ((ddBlocked_false_iff af atk tgt _).mpr ⟨hno.1, hno.2.1, hno.2.2⟩)
  have hsub : ((List.range (af.arguments.length + 3)).map defenderCand).toFinset ⊆
      (af.arguments ++ [atk, tgt]).toFinset := by
    intro x hx
    simp only [List.mem_toFinset, List.mem_map, List.mem_range] at hx
    obtain ⟨k, hk, rfl⟩ := hx
    have := hmem k hk
    simp only [List.mem_toFinset, List.mem_append, List.mem_cons, List.mem_singleton,
      List.not_mem_nil, or_false]
    tauto
  have hnd : ((List.range (af.arguments.length + 3)).map defenderCand).Nodup :=
    List.Nodup.map defenderCand_inj (List.nodup_range _)
  have hcard1 : ((List.range (af.arguments.length + 3)).map defenderCand).toFinset.card
      = af.arguments.length + 3 := by
    rw [List.toFinset_card_of_nodup hnd]
    simp
  have hcard2 : (af.arguments ++ [atk, tgt]).toFinset.card ≤ af.arguments.length + 2 := by
    calc (af.arguments ++ [atk, tgt]).toFinset.card ≤ (af.arguments ++ [atk, tgt]).length :=
      List.toFinset_card_le _
    _ = af.arguments.length + 2 := by simp
  have := Finset.card_le_card hsub
  omega

/-- If some candidate within the fuel window is unblocked, the loop returns
an unblocked name. -/
theorem defenderLoop_unblocked (af : AF) (atk tgt : String) :
    ∀ (fuel counter : Nat),
      (∃ k, k < fuel ∧ ddBlocked af atk tgt (defenderCand (counter + k)) = false) →
      ddBlocked af atk tgt (defenderLoop af atk tgt counter fuel) = false := by
  intro fuel
  induction fuel with
  | zero => rintro counter ⟨k, hk, _⟩; omega
  | succ f ih =>
    rintro counter ⟨k, hk, hfree⟩
    by_cases hb : ddBlocked af atk tgt (defenderCand counter) = true
    · have hk0 : k ≠ 0 := by
        rintro rfl
        rw [Nat.add_zero] at hfree
        rw [hfree] at hb
        cases hb
      obtain ⟨j, rfl⟩ : ∃ j, k = j + 1 := ⟨k - 1, by omega⟩
      have hrec := ih (counter + 1) ⟨j, by omega, by
        have harith : counter + 1 + j = counter + (j + 1) := by omega
        rw [harith]; exact hfree⟩
      simpa [defenderLoop, hb] using hrec
    · have hbf : ddBlocked af atk tgt (defenderCand counter) = false := by
        cases h : ddBlocked af atk tgt (defenderCand counter)
        · rfl
        · exact absurd h hb
      simp [defenderLoop, hbf]

/-- The defender name actually chosen by `apply_defense_dynamics` collides
with no existing argument name (nor with the chosen attacker or target). -/
theorem defenderLoop_result_fresh (af : AF) (atk tgt : String) :
    defenderLoop af atk tgt 0 (af.arguments.length + 3) ∉ af.arguments ∧
    defenderLoop af atk tgt 0 (af.arguments.length + 3) ≠ atk ∧
    defenderLoop af atk tgt 0 (af.arguments.length + 3) ≠ tgt := by
  rw [← ddBlocked_false_iff af atk tgt]
  apply defenderLoop_unblocked
  obtain ⟨k, hk, hfree⟩ := exists_unblocked af atk tgt
  exact ⟨k, hk, by simpa using hfree⟩

/-! ## Helper characterizations of the transformations -/

/-- On an AF with at least one defeat, `apply_defense_dynamics` succeeds,
choosing an existing defeat and naming the defender via the collision loop. -/
theorem apply_defense_dynamics_ok (af : AF) (pick : Nat) (h : af.defeats ≠ []) :
    ∃ atk tgt,
      (atk, tgt) ∈ af.defeats ∧
      apply_defense_dynamics af pick =
        .ok (⟨"defense_dynamics_" ++ af.name,
              af.arguments ++ [defenderLoop af atk tgt 0 (af.arguments.length + 3)],
              af.defeats ++ [(defenderLoop af atk tgt 0 (af.arguments.length + 3), atk)]⟩,
             defenderLoop af atk tgt 0 (af.arguments.length + 3), atk, tgt) := by
  unfold apply_defense_dynamics
  split
  · rename_i heq
    exact absurd heq h
  · rename_i d ds heq
    refine ⟨((d :: ds).get ⟨pick % (d :: ds).length, Nat.mod_lt _ (by simp)⟩).1,
            ((d :: ds).get ⟨pick % (d :: ds).length, Nat.mod_lt _ (by simp)⟩).2, ?_, ?_⟩
    · rw [heq, Prod.mk.eta]
      exact List.get_mem _ _ _
    · rfl

/-! ## Claim C1 -/

/-- C1 counterexample: the claim says every transformation adding a
synthetic argument returns a name distinct from all existing argument names.
But on a base AF that already has an argument named `SA`,
`apply_fundamental_consistency` (called, as in the orchestrator, with the
default name `SA`) returns exactly the colliding name `SA`; likewise
`apply_modularity` returns a colliding `U`.  No suffix loop exists in either
function. -/
theorem c1_counterexample :
    ("SA" ∈ (AF.mk "base" ["SA"] []).arguments ∧
      (apply_fundamental_consistency (AF.mk "base" ["SA"] []) "SA").2 = "SA") ∧
    ("U" ∈ (AF.mk "base2" ["U"] []).arguments ∧
      (apply_modularity (AF.mk "base2" ["U"] []) "U").2 = "U") := by
  refine ⟨⟨?_, rfl⟩, ⟨?_, rfl⟩⟩ <;> decide

/-- C1 (amended): of the three synthetic-argument transformations, only
`apply_defense_dynamics` guarantees a fresh name — by incrementing a numeric
suffix (`M_Defender`, `M_Defender_1`, …) until no collision with the
existing argument names remains.  `apply_fundamental_consistency` and
`apply_modularity` return the provided name (Python defaults `SA` and `U`)
unchanged, with no collision avoidance. -/
theorem c1_fresh_names_amended (af : AF) (pick : Nat) (sa u : String)
    (hne : af.defeats ≠ []) :
    (∃ ddAf defName atk tgt,
        apply_defense_dynamics af pick = .ok (ddAf, defName, atk, tgt) ∧
        defName ∉ af.arguments) ∧
    (apply_fundamental_consistency af sa).2 = sa ∧
    (apply_modularity af u).2 = u := by
  obtain ⟨atk, tgt, _, heq⟩ := apply_defense_dynamics_ok af pick hne
  exact ⟨⟨_, _, _, _, heq, (defenderLoop_result_fresh af atk tgt).1⟩, rfl, rfl⟩

/-- Witness for C1 (amended) at a concrete two-argument AF with one attack. -/
theorem c1_fresh_names_amended_witness :
    ((AF.mk "w" ["A1", "A2"] [("A1", "A2")]).defeats ≠ []) ∧
    ((∃ ddAf defName atk tgt,
        apply_defense_dynamics (AF.mk "w" ["A1", "A2"] [("A1", "A2")]) 0 =
          .ok (ddAf, defName, atk, tgt) ∧
        defName ∉ (AF.mk "w" ["A1", "A2"] [("A1", "A2")]).arguments) ∧
      (apply_fundamental_consistency (AF.mk "w" ["A1", "A2"] [("A1", "A2")]) "SA").2 = "SA" ∧
      (apply_modularity (AF.mk "w" ["A1", "A2"] [("A1", "A2")]) "U").2 = "U") :=
  ⟨by decide, c1_fresh_names_amended (AF.mk "w" ["A1", "A2"] [("A1", "A2")]) 0 "SA" "U" (by decide)⟩

/-! ## Claim C8 -/

/-- C8: `apply_defense_dynamics` raises exactly when the input AF has no
attack; otherwise the returned (attacker, target) pair is an existing defeat
of the input AF, and the transformed AF is the input plus exactly one new
defender argument and one new attack from the defender to the chosen
attacker. -/
theorem c8_defense_dynamics_spec (af : AF) (pick : Nat) :
    ((∃ e, apply_defense_dynamics af pick = .error e) ↔ af.defeats = []) ∧
    (af.defeats ≠ [] →
      ∃ ddAf defName atk tgt,
        apply_defense_dynamics af pick = .ok (ddAf, defName, atk, tgt) ∧
        (atk, tgt) ∈ af.defeats ∧
        ddAf.arguments = af.arguments ++ [defName] ∧
        ddAf.defeats = af.defeats ++ [(defName, atk)]) := by
  have herr : af.defeats = [] →
      apply_defense_dynamics af pick = .error "Cannot apply Defense Dynamics to an AF with no defeats." := by
    intro h0
    unfold apply_defense_dynamics
    split
    · rfl
    · rename_i d ds heq
      rw [h0] at heq
      cases heq
  constructor
  · constructor
    · rintro ⟨e, he⟩
      by_contra hne
      obtain ⟨atk, tgt, _, heq⟩ := apply_defense_dynamics_ok af pick hne
      rw [heq] at he
      cases he
    · intro h0
      exact ⟨_, herr h0⟩
  · intro hne
    obtain ⟨atk, tgt, hmem, heq⟩ := apply_defense_dynamics_ok af pick hne
    exact ⟨_, _, _, _, heq, hmem, rfl, rfl⟩

/-- Witness for C8 at a concrete AF with one attack. -/
theorem c8_defense_dynamics_spec_witness :
    ((AF.mk "w8" ["A1", "A2"] [("A1", "A2")]).defeats ≠ []) ∧
    (∃ ddAf defName atk tgt,
        apply_defense_dynamics (AF.mk "w8" ["A1", "A2"] [("A1", "A2")]) 1 =
          .ok (ddAf, defName, atk, tgt) ∧
        (atk, tgt) ∈ (AF.mk "w8" ["A1", "A2"] [("A1", "A2")]).defeats ∧
        ddAf.arguments = (AF.mk "w8" ["A1", "A2"] [("A1", "A2")]).arguments ++ [defName] ∧
        ddAf.defeats = (AF.mk "w8" ["A1", "A2"] [("A1", "A2")]).defeats ++ [(defName, atk)]) :=
  ⟨by decide, (c8_defense_dynamics_spec (AF.mk "w8" ["A1", "A2"] [("A1", "A2")]) 1).2 (by decide)⟩

/-! ## Claim C9: generator validation and well-formedness -/

theorem generate_no_conflict_wf (n : Int) (af : AF)
    (h : generate_no_conflict n = .ok af) : af.WellFormed := by
  unfold generate_no_conflict at h
  split at h
  · cases h
  · cases h
    exact ⟨anames_nodup _, by intro d hd; simp at hd⟩

theorem generate_linear_attack_chain_wf (n : Int) (af : AF)
    (h : generate_linear_attack_chain n = .ok af) : af.WellFormed := by
  unfold generate_linear_attack_chain at h
  split at h
  · cases h
  · rename_i hge
    cases h
    refine ⟨anames_nodup _, ?_⟩
    intro d hd
    simp only [List.mem_map, List.mem_range] at hd
    obtain ⟨i, hi, rfl⟩ := hd
    have hn : 2 ≤ n.toNat := by omega
    constructor
    · simp only [List.mem_map, List.mem_range]
      exact ⟨i, by omega, rfl⟩
    · simp only [List.mem_map, List.mem_range]
      exact ⟨i + 1, by omega, rfl⟩

theorem generate_cycle_wf (n : Int) (af : AF)
    (h : generate_cycle n = .ok af) : af.WellFormed := by
  unfold generate_cycle at h
  split at h
  · cases h
  · rename_i hge
    cases h
    refine ⟨anames_nodup _, ?_⟩
    intro d hd
    simp only [List.mem_map, List.mem_range] at hd
    obtain ⟨i, hi, rfl⟩ := hd
    have hn : 2 ≤ n.toNat := by omega
    constructor
    · simp only [List.mem_map, List.mem_range]
      exact ⟨i, hi, rfl⟩
    · simp only [List.mem_map, List.mem_range]
      exact ⟨(i + 1) % n.toNat, Nat.mod_lt _ (by omega), rfl⟩

theorem generate_stma_wf (n : Int) (af : AF)
    (h : generate_single_target_multiple_attackers n = .ok af) : af.WellFormed := by
  unfold generate_single_target_multiple_attackers at h
  split at h
  · cases h
  · cases h
    constructor
    · refine List.nodup_cons.mpr ⟨?_, anames_nodup _⟩
      intro hmem
      simp only [List.mem_map, List.mem_range] at hmem
      obtain ⟨i, _, hi⟩ := hmem
      exact t_ne_aname (i + 1) hi.symm
    · intro d hd
      simp only [List.mem_map, List.mem_range] at hd
      obtain ⟨i, hi, rfl⟩ := hd
      constructor
      · simp only [List.mem_cons, List.mem_map, List.mem_range]
        exact Or.inr ⟨i, hi, rfl⟩
      · simp

theorem generate_samd_wf (n : Int) (af : AF)
    (h : generate_single_attack_multiple_defenders n = .ok af) : af.WellFormed := by
  unfold generate_single_attack_multiple_defenders at h
  split at h
  · cases h
  · cases h
    constructor
    · refine List.nodup_cons.mpr ⟨?_, List.nodup_cons.mpr ⟨?_, dnames_nodup _⟩⟩
      · intro hmem
        simp only [List.mem_cons, List.mem_map, List.mem_range] at hmem
        rcases hmem with h | ⟨i, _, hi⟩
        · exact absurd h (by decide)
        · exact t_ne_dname (i + 1) hi.symm
      · intro hmem
        simp only [List.mem_map, List.mem_range] at hmem
        obtain ⟨i, _, hi⟩ := hmem
        exact att_ne_dname (i + 1) hi.symm
    · intro d hd
      simp only [List.mem_cons, List.mem_map, List.mem_range] at hd
      rcases hd with rfl | ⟨i, hi, rfl⟩
      · exact ⟨by simp, by simp⟩
      · constructor
        · simp only [List.mem_cons, List.mem_map, List.mem_range]
          exact Or.inr (Or.inr ⟨i, hi, rfl⟩)
        · simp

theorem generate_dsp_wf (n : Int) (af : AF)
    (h : generate_disconnected_symmetric_pairs n = .ok af) : af.WellFormed := by
  unfold generate_disconnected_symmetric_pairs at h
  split at h
  · cases h
  · cases h
    constructor
    · exact dspArgs_nodup _
    · intro d hd
      simp only [List.mem_flatMap, List.mem_range, List.mem_cons, List.mem_singleton,
        List.not_mem_nil, or_false] at hd
      obtain ⟨i, hi, hcase⟩ := hd
      have hA : aname (i + 1) ∈ dspArgs (n.toNat / 2) :=
        mem_dspArgs.mpr ⟨i, hi, Or.inl rfl⟩
      have hB : bname (i + 1) ∈ dspArgs (n.toNat / 2) :=
        mem_dspArgs.mpr ⟨i, hi, Or.inr rfl⟩
      rcases hcase with rfl | rfl
      · exact ⟨hA, hB⟩
      · exact ⟨hB, hA⟩

/-- C9: each generator raises a validation error exactly when its size
precondition is violated and otherwise returns a well-formed AF (unique
argument names, defeat endpoints among the arguments); in particular the
four boundary calls `generate_no_conflict 0`, `generate_linear_attack_chain
1`, `generate_cycle 1` and `generate_disconnected_symmetric_pairs 3` all
fail with a validation error. -/
theorem c9_generators_validate (n : Int) :
    (((∃ e, generate_no_conflict n = .error e) ↔ n ≤ 0) ∧
      (∀ af, generate_no_conflict n = .ok af → af.WellFormed)) ∧
    (((∃ e, generate_linear_attack_chain n = .error e) ↔ n < 2) ∧
      (∀ af, generate_linear_attack_chain n = .ok af → af.WellFormed)) ∧
    (((∃ e, generate_cycle n = .error e) ↔ n < 2) ∧
      (∀ af, generate_cycle n = .ok af → af.WellFormed)) ∧
    (((∃ e, generate_single_target_multiple_attackers n = .error e) ↔ n < 2) ∧
      (∀ af, generate_single_target_multiple_attackers n = .ok af → af.WellFormed)) ∧
    (((∃ e, generate_single_attack_multiple_defenders n = .error e) ↔ n < 3) ∧
      (∀ af, generate_single_attack_multiple_defenders n = .ok af → af.WellFormed)) ∧
    (((∃ e, generate_disconnected_symmetric_pairs n = .error e) ↔ (n < 2 ∨ n % 2 ≠ 0)) ∧
      (∀ af, generate_disconnected_symmetric_pairs n = .ok af → af.WellFormed)) ∧
    ((∃ e, generate_no_conflict 0 = .error e) ∧
      (∃ e, generate_linear_attack_chain 1 = .error e) ∧
      (∃ e, generate_cycle 1 = .error e) ∧
      (∃ e, generate_disconnected_symmetric_pairs 3 = .error e)) := by
  refine ⟨⟨?_, fun af => generate_no_conflict_wf n af⟩,
          ⟨?_, fun af => generate_linear_attack_chain_wf n af⟩,
          ⟨?_, fun af => generate_cycle_wf n af⟩,
          ⟨?_, fun af => generate_stma_wf n af⟩,
          ⟨?_, fun af => generate_samd_wf n af⟩,
          ⟨?_, fun af => generate_dsp_wf n af⟩,
          ⟨"Number of arguments n must be positive.", by rfl⟩,
          ⟨"Linear Attack Chain requires at least 2 arguments.", by rfl⟩,
          ⟨"Cycle requires at least 2 arguments.", by rfl⟩,
          ⟨"Number of arguments n must be an even number at least 2.", by rfl⟩⟩
  · by_cases hc : n ≤ 0
    · simp only [generate_no_conflict, if_pos hc]
      exact ⟨fun _ => hc, fun _ => ⟨_, rfl⟩⟩
    · simp only [generate_no_conflict, if_neg hc]
      exact ⟨(fun h => nomatch h.choose_spec), (fun hcc => absurd hcc hc)⟩
  · by_cases hc : n < 2
    · simp only [generate_linear_attack_chain, if_pos hc]
      exact ⟨fun _ => hc, fun _ => ⟨_, rfl⟩⟩
    · simp only [generate_linear_attack_chain, if_neg hc]
      exact ⟨(fun h => nomatch h.choose_spec), (fun hcc => absurd hcc hc)⟩
  · by_cases hc : n < 2
    · simp only [generate_cycle, if_pos hc]
      exact ⟨fun _ => hc, fun _ => ⟨_, rfl⟩⟩
    · simp only [generate_cycle, if_neg hc]
      exact ⟨(fun h => nomatch h.choose_spec), (fun hcc => absurd hcc hc)⟩
  · by_cases hc : n < 2
    · simp only [generate_single_target_multiple_attackers, if_pos hc]
      exact ⟨fun _ => hc, fun _ => ⟨_, rfl⟩⟩
    · simp only [generate_single_target_multiple_attackers, if_neg hc]
      exact ⟨(fun h => nomatch h.choose_spec), (fun hcc => absurd hcc hc)⟩
  · by_cases hc : n < 3
    · simp only [generate_single_attack_multiple_defenders, if_pos hc]
      exact ⟨fun _ => hc, fun _ => ⟨_, rfl⟩⟩
    · simp only [generate_single_attack_multiple_defenders, if_neg hc]
      exact ⟨(fun h => nomatch h.choose_spec), (fun hcc => absurd hcc hc)⟩
  · by_cases hc : n < 2 ∨ n % 2 ≠ 0
    · simp only [generate_disconnected_symmetric_pairs, if_pos hc]
      exact ⟨fun _ => hc, fun _ => ⟨_, rfl⟩⟩
    · simp only [generate_disconnected_symmetric_pairs, if_neg hc]
      exact ⟨(fun h => nomatch h.choose_spec), (fun hcc => absurd hcc hc)⟩

/-- Witness for C9: well-formedness of concrete in-precondition instances. -/
theorem c9_generators_validate_witness :
    (generate_no_conflict 3 = .ok (AF.mk "No-Conflict (n=3)" ["A1", "A2", "A3"] []) →
      (AF.mk "No-Conflict (n=3)" ["A1", "A2", "A3"] []).WellFormed) ∧
    (AF.mk "No-Conflict (n=3)" ["A1", "A2", "A3"] []).WellFormed := by
  have h := (c9_generators_validate 3).1.2 (AF.mk "No-Conflict (n=3)" ["A1", "A2", "A3"] [])
  exact ⟨h, h (by rfl)⟩

/-! ## Claim C2: the defense-dynamics column for attack-free base AFs -/

/-- A trivial ground-truth comparator, for concrete runs of the
orchestrator body. -/
def trivialGT : GroundTruth := ⟨fun _ => [], fun _ => [], fun _ => [], fun _ => []⟩

/-- A trivial oracle answering every query with four empty families. -/
def trivialOracle : AF → Except QErr RawFamily :=
  fun _ => .ok ⟨some [], some [], some [], some []⟩

/-- C2 counterexample: on the attack-free base AF `generate_no_conflict 2`,
with a successfully answering oracle, the orchestrator records *no*
`defense_dynamics` entry at all — the key is absent from the results for the
pair, contradicting the claim that a not-applicable entry is recorded.  (The
not-applicable rendering happens later, in the external report generator,
precisely when the key is missing.) -/
theorem c2_counterexample :
    generate_no_conflict 2 = .ok (AF.mk "No-Conflict (n=2)" ["A1", "A2"] []) ∧
    trivialOracle (AF.mk "No-Conflict (n=2)" ["A1", "A2"] []) =
      .ok ⟨some [], some [], some [], some []⟩ ∧
    colLookup (runPair trivialGT trivialOracle 0 (AF.mk "No-Conflict (n=2)" ["A1", "A2"] []))
      "defense_dynamics" = none := ⟨rfl, rfl, rfl⟩

/-- C2 (amended): when the base query succeeds, the orchestrator skips the
Defense-Dynamics sub-test for a base AF without attack edges and leaves the
`defense_dynamics` key absent from that pair's results (not-applicable is
implicit via the missing key); with at least one attack edge the key is
always present. -/
theorem c2_dd_key_absent_iff (g : GroundTruth) (oracle : AF → Except QErr RawFamily)
    (pick : Nat) (af : AF) (fam : RawFamily) (hok : oracle af = .ok fam) :
    colLookup (runPair g oracle pick af) "defense_dynamics" = none ↔ af.defeats = [] := by
  simp only [runPair, hok]
  rcases h : af.defeats with _ | ⟨d, ds⟩
  · simp [h, colLookup]
  · have hne : af.defeats ≠ [] := by rw [h]; simp
    obtain ⟨atk, tgt, hmem, heq⟩ := apply_defense_dynamics_ok af pick hne
    rw [h] at heq
    simp only [h, List.isEmpty_cons, heq, colLookup]
    simp

/-- Witness for C2 (amended) at the concrete attack-free AF. -/
theorem c2_dd_key_absent_iff_witness :
    (trivialOracle (AF.mk "No-Conflict (n=2)" ["A1", "A2"] []) =
      .ok ⟨some [], some [], some [], some []⟩) ∧
    (colLookup (runPair trivialGT trivialOracle 0 (AF.mk "No-Conflict (n=2)" ["A1", "A2"] []))
      "defense_dynamics" = none ↔ (AF.mk "No-Conflict (n=2)" ["A1", "A2"] []).defeats = []) :=
  ⟨rfl, c2_dd_key_absent_iff trivialGT trivialOracle 0 _ _ rfl⟩

/-! ## VDict lemmas -/

theorem vget_vadd_ne (v : VDict) (k m k' : String) (h : k' ≠ k) :
    vget (vadd v k m) k' = vget v k' := by
  induction v with
  | nil => simp [vadd, vget, h]
  | cons p rest ih =>
    rcases p with ⟨a, ms⟩
    by_cases hp : k = a
    · subst hp
      simp [vadd, vget, h]
    · simp only [vadd, if_neg hp, vget]
      by_cases hq : k' = a <;> simp [hq, ih]

theorem vget_vadd_self (v : VDict) (k m : String) :
    vget (vadd v k m) k = some ((vget v k).getD [] ++ [m]) := by
  induction v with
  | nil => simp [vadd, vget]
  | cons p rest ih =>
    rcases p with ⟨a, ms⟩
    by_cases hp : k = a
    · subst hp
      simp [vadd, vget]
    · simp [vadd, hp, vget, ih]

theorem vget_ite_vadd_ne (c : Prop) [Decidable c] (v : VDict) (k m k' : String) (h : k' ≠ k) :
    vget (if c then vadd v k m else v) k' = vget v k' := by
  split
  · exact vget_vadd_ne v k m k' h
  · rfl

theorem mem_vadd_key (v : VDict) (k m : String) :
    ∀ p ∈ vadd v k m, p.1 = k ∨ p.1 ∈ v.map Prod.fst := by
  induction v with
  | nil =>
    intro p hp
    simp [vadd] at hp
    simp [hp]
  | cons q rest ih =>
    rcases q with ⟨a, ms⟩
    intro p hp
    by_cases hpk : k = a
    · subst hpk
      simp only [vadd, if_pos rfl] at hp
      rcases List.mem_cons.mp hp with rfl | hptail
      · exact Or.inl rfl
      · exact Or.inr (List.mem_cons.mpr (Or.inr (List.mem_map_of_mem Prod.fst hptail)))
    · simp only [vadd, if_neg hpk] at hp
      rcases List.mem_cons.mp hp with rfl | hptail
      · exact Or.inr (List.mem_cons.mpr (Or.inl rfl))
      · rcases ih p hptail with h1 | h1
        · exact Or.inl h1
        · exact Or.inr (List.mem_cons.mpr (Or.inr h1))

/-! ## Schema-check characterization

`badValue` is the element-level property the schema gate enforces: the
element is not a string, or (being a string) contains a space character. -/

def badValue (a : Value) : Bool :=
  match a with
  | .str s => s.data.contains ' '
  | _ => true

theorem badValue_false_iff (a : Value) :
    badValue a = false ↔ a.spaceTest = .ok false ∧ a.isStr = true := by
  cases a <;> simp [badValue, Value.spaceTest, Value.isStr]

theorem anySpace_error_imp : ∀ {l : List Value}, anySpace l = .error () →
    ∃ a ∈ l, a.spaceTest = .error () := by
  intro l
  induction l with
  | nil => intro h; simp [anySpace] at h
  | cons a rest ih =>
    intro h
    unfold anySpace at h
    rcases hs : a.spaceTest with e | b
    · exact ⟨a, by simp, by rw [hs]⟩
    · rw [hs] at h
      cases b
      · obtain ⟨x, hx, hxs⟩ := ih h
        exact ⟨x, by simp [hx], hxs⟩
      · cases h

theorem anySpace_true_imp : ∀ {l : List Value}, anySpace l = .ok true →
    ∃ a ∈ l, a.spaceTest = .ok true := by
  intro l
  induction l with
  | nil => intro h; simp [anySpace] at h
  | cons a rest ih =>
    intro h
    unfold anySpace at h
    rcases hs : a.spaceTest with e | b
    · rw [hs] at h; cases h
    · rw [hs] at h
      cases b
      · obtain ⟨x, hx, hxs⟩ := ih h
        exact ⟨x, by simp [hx], hxs⟩
      · exact ⟨a, by simp, hs⟩

theorem anySpace_false_iff : ∀ {l : List Value}, anySpace l = .ok false ↔
    ∀ a ∈ l, a.spaceTest = .ok false := by
  intro l
  induction l with
  | nil => simp [anySpace]
  | cons a rest ih =>
    unfold anySpace
    rcases hs : a.spaceTest with e | b
    · refine iff_of_false (by simp) ?_
      intro hall
      have := hall a (by simp)
      rw [hs] at this
      cases this
    · cases b
      · simp only []
        rw [ih]
        constructor
        · intro hall x hx
          rcases List.mem_cons.mp hx with rfl | hmem
          · exact hs
          · exact hall x hmem
        · intro hall x hx
          exact hall x (by simp [hx])
      · refine iff_of_false (by simp) ?_
        intro hall
        have := hall a (by simp)
        rw [hs] at this
        cases this

theorem hasNonStr_false_iff (ls : Family) :
    hasNonStr ls = false ↔ ∀ a ∈ ls.flatten, a.isStr = true := by
  unfold hasNonStr
  rw [List.any_eq_false]
  simp

/-- A present tag passes the per-tag schema check exactly when none of its
elements is bad. -/
theorem schemaCheckTag_none_iff (ls : Family) :
    schemaCheckTag (some ls) = none ↔ ∀ a ∈ ls.flatten, badValue a = false := by
  have hred : schemaCheckTag (some ls) =
      match anySpace ls.flatten with
      | .error _ => some (vadd [] "SCHEMA-VERIFICATION-FAILED" msgSVF)
      | .ok true => some (vadd [] "SCHEMA-ERROR" msgSpace)
      | .ok false =>
        if hasNonStr ls then some (vadd [] "SCHEMA-ERROR" msgNonStr) else none := rfl
  rw [hred]
  rcases h : anySpace ls.flatten with e | b
  · refine iff_of_false (by simp) ?_
    intro hall
    obtain ⟨a, ha, herr⟩ := anySpace_error_imp h
    have := (badValue_false_iff a).mp (hall a ha)
    rw [herr] at this
    cases this.1
  · cases b
    · simp only []
      by_cases hns : hasNonStr ls
      · refine iff_of_false (by simp [hns]) ?_
        intro hall
        have hf : hasNonStr ls = false := by
          rw [hasNonStr_false_iff]
          intro a ha
          exact ((badValue_false_iff a).mp (hall a ha)).2
        rw [hf] at hns
        cases hns
      · rw [if_neg hns]
        refine iff_of_true rfl ?_
        intro a ha
        rw [badValue_false_iff]
        refine ⟨anySpace_false_iff.mp h a ha, ?_⟩
        exact (hasNonStr_false_iff ls).mp (by simpa using hns) a ha
    · refine iff_of_false (by simp) ?_
      intro hall
      obtain ⟨a, ha, htrue⟩ := anySpace_true_imp h
      have := (badValue_false_iff a).mp (hall a ha)
      rw [htrue] at this
      cases this.1

/-- Every violation dict a failing per-tag check returns carries only the
two schema keys. -/
theorem schemaCheckTag_some_keys (o : Option Family) (v : VDict)
    (h : schemaCheckTag o = some v) :
    ∀ p ∈ v, p.1 = "SCHEMA-ERROR" ∨ p.1 = "SCHEMA-VERIFICATION-FAILED" := by
  unfold schemaCheckTag at h
  rcases ha : anySpaceOpt o with e | b
  · rw [ha] at h
    cases h
    intro p hp
    simp [vadd] at hp
    simp [hp]
  · rw [ha] at h
    cases b
    · by_cases hns : hasNonStr (o.getD [])
      · rw [if_pos hns] at h
        cases h
        intro p hp
        simp [vadd] at hp
        simp [hp]
      · rw [if_neg hns] at h
        cases h
    · cases h
      intro p hp
      simp [vadd] at hp
      simp [hp]

theorem schemaLoop_none_iff (fam : RawFamily) : ∀ ts : List String,
    (schemaLoop fam ts = none ↔ ∀ t ∈ ts, schemaCheckTag (fam.get t) = none) := by
  intro ts
  induction ts with
  | nil => simp [schemaLoop]
  | cons t rest ih =>
    unfold schemaLoop
    rcases hc : schemaCheckTag (fam.get t) with _ | v
    · simp only []
      rw [ih]
      constructor
      · intro hall x hx
        rcases List.mem_cons.mp hx with rfl | hmem
        · exact hc
        · exact hall x hmem
      · intro hall x hx
        exact hall x (by simp [hx])
    · refine iff_of_false (by simp) ?_
      intro hall
      have := hall t (by simp)
      rw [hc] at this
      cases this

theorem schemaLoop_some_source (fam : RawFamily) : ∀ (ts : List String) (v : VDict),
    schemaLoop fam ts = some v → ∃ t ∈ ts, schemaCheckTag (fam.get t) = some v := by
  intro ts
  induction ts with
  | nil => intro v h; simp [schemaLoop] at h
  | cons t rest ih =>
    intro v h
    unfold schemaLoop at h
    rcases hc : schemaCheckTag (fam.get t) with _ | w
    · rw [hc] at h
      obtain ⟨x, hx, hxs⟩ := ih v h
      exact ⟨x, by simp [hx], hxs⟩
    · rw [hc] at h
      cases h
      exact ⟨t, by simp, hc⟩

/-! ## FP-check characterization -/

/-- The FP-6 failure condition for one extension: some name does not resolve
or the resolved set is not conflict-free. -/
def fp6Fails (af : AF) (s : Extension) : Bool :=
  match resolveExt af s with
  | none => true
  | some args => !(is_conflict_free args af)

theorem resolveExt_none_iff (af : AF) : ∀ s : Extension,
    resolveExt af s = none ↔ ∃ a ∈ s, resolveValue af a = none := by
  intro s
  induction s with
  | nil => simp [resolveExt]
  | cons a rest ih =>
    unfold resolveExt
    rcases ha : resolveValue af a with _ | x
    · refine iff_of_true rfl ⟨a, by simp, ha⟩
    · rcases hr : resolveExt af rest with _ | xs
      · refine iff_of_true rfl ?_
        obtain ⟨b, hb, hbn⟩ := ih.mp hr
        exact ⟨b, by simp [hb], hbn⟩
      · refine iff_of_false (by simp) ?_
        rintro ⟨b, hb, hbn⟩
        rcases List.mem_cons.mp hb with rfl | hmem
        · rw [ha] at hbn; cases hbn
        · have := ih.mpr ⟨b, hmem, hbn⟩
          rw [hr] at this
          cases this

theorem fp6Fails_iff (af : AF) (s : Extension) :
    fp6Fails af s = true ↔
      (∃ a ∈ s, resolveValue af a = none) ∨
      (∃ args, resolveExt af s = some args ∧ is_conflict_free args af = false) := by
  unfold fp6Fails
  rcases hr : resolveExt af s with _ | args
  · exact iff_of_true rfl (Or.inl ((resolveExt_none_iff af s).mp hr))
  · constructor
    · intro hb
      exact Or.inr ⟨args, rfl, by simpa using hb⟩
    · rintro (⟨a, ha, han⟩ | ⟨args2, hargs2, hcf⟩)
      · have := (resolveExt_none_iff af s).mpr ⟨a, ha, han⟩
        rw [hr] at this
        cases this
      · injection hargs2 with h2
        subst h2
        simp [hcf]

theorem vget_fp6Extend_ne (af : AF) (tag : String) (v : VDict) (s : Extension)
    (k : String) (hk : k ≠ "FP-6") :
    vget (fp6Extend af tag v s) k = vget v k := by
  unfold fp6Extend
  rcases resolveExt af s with _ | args
  · exact vget_vadd_ne _ _ _ _ hk
  · by_cases hc : is_conflict_free args af
    · simp [hc]
    · simp [hc, vget_vadd_ne _ _ _ _ hk]

theorem vget_fp6Inner_ne (af : AF) (tag : String) (ls : List Extension)
    (k : String) (hk : k ≠ "FP-6") :
    ∀ v, vget (ls.foldl (fp6Extend af tag) v) k = vget v k := by
  induction ls with
  | nil => intro v; rfl
  | cons s rest ih =>
    intro v
    rw [List.foldl_cons, ih, vget_fp6Extend_ne _ _ _ _ _ hk]

theorem vget_fp6Fold_ne (af : AF) (fam : RawFamily) (v : VDict)
    (k : String) (hk : k ≠ "FP-6") :
    vget (fp6Fold af fam v) k = vget v k := by
  unfold fp6Fold
  generalize fam.items = its
  induction its generalizing v with
  | nil => rfl
  | cons tf rest ih =>
    rw [List.foldl_cons, ih, vget_fp6Inner_ne _ _ _ _ hk]

theorem fp6Extend_len (af : AF) (tag : String) (v : VDict) (s : Extension) :
    ((vget (fp6Extend af tag v s) "FP-6").getD []).length =
      ((vget v "FP-6").getD []).length + (if fp6Fails af s then 1 else 0) := by
  unfold fp6Extend fp6Fails
  rcases resolveExt af s with _ | args
  · simp [vget_vadd_self]
  · by_cases hc : is_conflict_free args af <;> simp [hc, vget_vadd_self]

theorem fp6Inner_len (af : AF) (tag : String) (ls : List Extension) :
    ∀ v, ((vget (ls.foldl (fp6Extend af tag) v) "FP-6").getD []).length =
      ((vget v "FP-6").getD []).length + (ls.filter (fp6Fails af)).length := by
  induction ls with
  | nil => intro v; simp
  | cons s rest ih =>
    intro v
    rw [List.foldl_cons, ih, fp6Extend_len]
    by_cases hf : fp6Fails af s
    · simp [hf, List.filter_cons]
      omega
    · simp [hf, List.filter_cons]


theorem fp6Fold_len (af : AF) (fam : RawFamily) (v : VDict) :
    ((vget (fp6Fold af fam v) "FP-6").getD []).length =
      ((vget v "FP-6").getD []).length +
        (fam.items.map (fun tf => (tf.2.filter (fp6Fails af)).length)).sum := by
  unfold fp6Fold
  generalize fam.items = its
  induction its generalizing v with
  | nil => simp
  | cons tf rest ih =>
    rw [List.foldl_cons, ih, fp6Inner_len]
    simp
    omega

theorem fpChecks_fp1 (af : AF) (fam : RawFamily) :
    vget (fpChecks af fam) "FP-1" =
      if ¬ famFinset (fam.GE.getD []) ⊆ famFinset (fam.CE.getD [])
      then some ["FP-1 Violation: Grounded extensions are not a subset of Complete extensions"]
      else none := by
  simp only [fpChecks]
  rw [vget_fp6Fold_ne _ _ _ _ (by decide),
      vget_ite_vadd_ne _ _ _ _ _ (by decide),
      vget_ite_vadd_ne _ _ _ _ _ (by decide),
      vget_ite_vadd_ne _ _ _ _ _ (by decide),
      vget_ite_vadd_ne _ _ _ _ _ (by decide)]
  split
  · rw [vget_vadd_self]
    simp [vget]
  · rfl

theorem fpChecks_fp2 (af : AF) (fam : RawFamily) :
    vget (fpChecks af fam) "FP-2" =
      if ¬ famFinset (fam.PE.getD []) ⊆ famFinset (fam.CE.getD [])
      then some ["FP-2 Violation: Preferred extensions are not a subset of Complete extensions"]
      else none := by
  simp only [fpChecks]
  rw [vget_fp6Fold_ne _ _ _ _ (by decide),
      vget_ite_vadd_ne _ _ _ _ _ (by decide),
      vget_ite_vadd_ne _ _ _ _ _ (by decide),
      vget_ite_vadd_ne _ _ _ _ _ (by decide)]
  split
  · rw [vget_vadd_self, vget_ite_vadd_ne _ _ _ _ _ (by decide)]
    simp [vget]
  · rw [vget_ite_vadd_ne _ _ _ _ _ (by decide)]
    rfl

theorem fpChecks_fp3 (af : AF) (fam : RawFamily) :
    vget (fpChecks af fam) "FP-3" =
      if ¬ famFinset (fam.SE.getD []) ⊆ famFinset (fam.PE.getD [])
      then some ["FP-3 Violation: Stable extensions are not a subset of Preferred extensions"]
      else none := by
  simp only [fpChecks]
  rw [vget_fp6Fold_ne _ _ _ _ (by decide),
      vget_ite_vadd_ne _ _ _ _ _ (by decide),
      vget_ite_vadd_ne _ _ _ _ _ (by decide)]
  split
  · rw [vget_vadd_self, vget_ite_vadd_ne _ _ _ _ _ (by decide),
        vget_ite_vadd_ne _ _ _ _ _ (by decide)]
    simp [vget]
  · rw [vget_ite_vadd_ne _ _ _ _ _ (by decide),
        vget_ite_vadd_ne _ _ _ _ _ (by decide)]
    rfl

theorem fpChecks_fp4 (af : AF) (fam : RawFamily) :
    vget (fpChecks af fam) "FP-4" =
      if 1 < (famFinset (fam.GE.getD [])).card
      then some ["FP-4 Violation: Expected 1 Grounded extension, but found more"]
      else none := by
  simp only [fpChecks]
  rw [vget_fp6Fold_ne _ _ _ _ (by decide),
      vget_ite_vadd_ne _ _ _ _ _ (by decide)]
  split
  · rw [vget_vadd_self, vget_ite_vadd_ne _ _ _ _ _ (by decide),
        vget_ite_vadd_ne _ _ _ _ _ (by decide),
        vget_ite_vadd_ne _ _ _ _ _ (by decide)]
    simp [vget]
  · rw [vget_ite_vadd_ne _ _ _ _ _ (by decide),
        vget_ite_vadd_ne _ _ _ _ _ (by decide),
        vget_ite_vadd_ne _ _ _ _ _ (by decide)]
    rfl

theorem fpChecks_fp5 (af : AF) (fam : RawFamily) :
    vget (fpChecks af fam) "FP-5" =
      if (famFinset (fam.PE.getD [])).card = 0
      then some ["FP-5 Violation: Expected at least 1 Preferred extension, but found none."]
      else none := by
  simp only [fpChecks]
  rw [vget_fp6Fold_ne _ _ _ _ (by decide)]
  split
  · rw [vget_vadd_self, vget_ite_vadd_ne _ _ _ _ _ (by decide),
        vget_ite_vadd_ne _ _ _ _ _ (by decide),
        vget_ite_vadd_ne _ _ _ _ _ (by decide),
        vget_ite_vadd_ne _ _ _ _ _ (by decide)]
    simp [vget]
  · rw [vget_ite_vadd_ne _ _ _ _ _ (by decide),
        vget_ite_vadd_ne _ _ _ _ _ (by decide),
        vget_ite_vadd_ne _ _ _ _ _ (by decide),
        vget_ite_vadd_ne _ _ _ _ _ (by decide)]
    rfl

theorem fpChecks_fp6_len (af : AF) (fam : RawFamily) :
    ((vget (fpChecks af fam) "FP-6").getD []).length =
      (fam.items.map (fun tf => (tf.2.filter (fp6Fails af)).length)).sum := by
  simp only [fpChecks]
  rw [fp6Fold_len,
      vget_ite_vadd_ne _ _ _ _ _ (by decide),
      vget_ite_vadd_ne _ _ _ _ _ (by decide),
      vget_ite_vadd_ne _ _ _ _ _ (by decide),
      vget_ite_vadd_ne _ _ _ _ _ (by decide),
      vget_ite_vadd_ne _ _ _ _ _ (by decide)]
  simp [vget]

theorem keys_vadd_sub (v : VDict) (k m : String) :
    ∀ x ∈ (vadd v k m).map Prod.fst, x = k ∨ x ∈ v.map Prod.fst := by
  intro x hx
  obtain ⟨p, hp, rfl⟩ := List.mem_map.mp hx
  exact mem_vadd_key v k m p hp

theorem keys_ite_vadd_sub (c : Prop) [Decidable c] (v : VDict) (k m : String) :
    ∀ x ∈ ((if c then vadd v k m else v).map Prod.fst), x = k ∨ x ∈ v.map Prod.fst := by
  split
  · exact keys_vadd_sub v k m
  · intro x hx
    exact Or.inr hx

theorem keys_fp6Extend_sub (af : AF) (tag : String) (v : VDict) (s : Extension) :
    ∀ x ∈ (fp6Extend af tag v s).map Prod.fst, x = "FP-6" ∨ x ∈ v.map Prod.fst := by
  intro x hx
  rcases hre : resolveExt af s with _ | args
  · rw [show fp6Extend af tag v s =
        vadd v "FP-6" ("FP-6 setup error: Could not verify conflict-freeness (" ++ tag ++ ").")
        from by unfold fp6Extend; rw [hre]] at hx
    exact keys_vadd_sub _ _ _ x hx
  · by_cases hc : is_conflict_free args af
    · rw [show fp6Extend af tag v s = v from by unfold fp6Extend; rw [hre]; simp [hc]] at hx
      exact Or.inr hx
    · rw [show fp6Extend af tag v s =
          vadd v "FP-6" ("FP-6 Violation (" ++ tag ++ "): Extension is not conflict-free.")
          from by unfold fp6Extend; rw [hre]; simp [hc]] at hx
      exact keys_vadd_sub _ _ _ x hx

theorem keys_fp6Inner_sub (af : AF) (tag : String) (ls : List Extension) :
    ∀ v x, x ∈ ((ls.foldl (fp6Extend af tag) v).map Prod.fst) →
      x = "FP-6" ∨ x ∈ v.map Prod.fst := by
  induction ls with
  | nil => intro v x hx; exact Or.inr hx
  | cons s rest ih =>
    intro v x hx
    rw [List.foldl_cons] at hx
    rcases ih (fp6Extend af tag v s) x hx with h | h
    · exact Or.inl h
    · exact keys_fp6Extend_sub af tag v s x h

theorem keys_fp6Fold_sub (af : AF) (fam : RawFamily) :
    ∀ v x, x ∈ (fp6Fold af fam v).map Prod.fst → x = "FP-6" ∨ x ∈ v.map Prod.fst := by
  unfold fp6Fold
  generalize fam.items = its
  induction its with
  | nil => intro v x hx; exact Or.inr hx
  | cons tf rest ih =>
    intro v x hx
    rw [List.foldl_cons] at hx
    rcases ih _ x hx with h | h
    · exact Or.inl h
    · exact keys_fp6Inner_sub af tf.1 tf.2 v x h

/-- Every key appearing in the FP accumulation is one of `FP-1` .. `FP-6`. -/
theorem fpChecks_keys (af : AF) (fam : RawFamily) :
    ∀ p ∈ fpChecks af fam,
      p.1 ∈ (["FP-1", "FP-2", "FP-3", "FP-4", "FP-5", "FP-6"] : List String) := by
  intro p hp
  have hx : p.1 ∈ (fpChecks af fam).map Prod.fst := List.mem_map_of_mem Prod.fst hp
  simp only [fpChecks] at hx
  rcases keys_fp6Fold_sub af fam _ _ hx with h | h
  · simp [h]
  rcases keys_ite_vadd_sub _ _ _ _ _ h with h | h
  · simp [h]
  rcases keys_ite_vadd_sub _ _ _ _ _ h with h | h
  · simp [h]
  rcases keys_ite_vadd_sub _ _ _ _ _ h with h | h
  · simp [h]
  rcases keys_ite_vadd_sub _ _ _ _ _ h with h | h
  · simp [h]
  rcases keys_ite_vadd_sub _ _ _ _ _ h with h | h
  · simp [h]
  simp at h

/-! ## Claim C4 -/

/-- The element-level schema property: some element of some present tagged
family is not a string or contains a space. -/
def hasBadElem (fam : RawFamily) : Prop :=
  ∃ t ∈ extTypes, ∃ ls, fam.get t = some ls ∧ ∃ s ∈ ls, ∃ a ∈ s, badValue a = true

/-- C4 counterexample: the claim speaks of elements that "contain
whitespace", but the schema gate only tests for the space character.  On a
family whose GE extension holds the name `"A\tB"` — which contains the
whitespace character TAB but no space — the schema check passes and the
FP checks are evaluated (the returned report carries FP keys, no schema
key), contradicting the claimed short-circuit. -/
theorem c4_counterexample :
    (('\t').isWhitespace = true ∧ '\t' ∈ ("A\tB" : String).data) ∧
    verify_output_schema
      (RawFamily.mk (some [[Value.str "A\tB"]]) (some []) (some []) (some [])) = none ∧
    hasKey (verify_fundamental_properties (AF.mk "w4" ["A1"] [])
      (RawFamily.mk (some [[Value.str "A\tB"]]) (some []) (some []) (some []))) "FP-5" = true ∧
    hasKey (verify_fundamental_properties (AF.mk "w4" ["A1"] [])
      (RawFamily.mk (some [[Value.str "A\tB"]]) (some []) (some []) (some []))) "SCHEMA-ERROR" = false ∧
    hasKey (verify_fundamental_properties (AF.mk "w4" ["A1"] [])
      (RawFamily.mk (some [[Value.str "A\tB"]]) (some []) (some []) (some [])))
      "SCHEMA-VERIFICATION-FAILED" = false := by
  refine ⟨⟨rfl, by decide⟩, rfl, ?_, ?_, ?_⟩ <;> rfl

/-- C4 (amended): for a four-tag extension-family mapping, if any element of
any tagged family is not a string or contains a *space character*, the call
returns only the schema-violation report (whose keys are `SCHEMA-ERROR` /
`SCHEMA-VERIFICATION-FAILED`) and evaluates none of FP-1 .. FP-6; otherwise
the schema check passes and every applicable FP-1 .. FP-6 violation is
accumulated into the one returned report without short-circuiting. -/
theorem c4_schema_gate (af : AF) (fam : RawFamily)
    (hGE : fam.GE.isSome = true) (hCE : fam.CE.isSome = true)
    (hPE : fam.PE.isSome = true) (hSE : fam.SE.isSome = true) :
    (hasBadElem fam →
      ∃ v, verify_output_schema fam = some v ∧
        verify_fundamental_properties af fam = v ∧
        ∀ p ∈ v, p.1 = "SCHEMA-ERROR" ∨ p.1 = "SCHEMA-VERIFICATION-FAILED") ∧
    (¬ hasBadElem fam →
      verify_output_schema fam = none ∧
      verify_fundamental_properties af fam = fpChecks af fam ∧
      (∀ p ∈ fpChecks af fam,
        p.1 ∈ (["FP-1", "FP-2", "FP-3", "FP-4", "FP-5", "FP-6"] : List String)) ∧
      ((¬ famFinset (fam.GE.getD []) ⊆ famFinset (fam.CE.getD [])) →
        hasKey (fpChecks af fam) "FP-1" = true) ∧
      ((¬ famFinset (fam.PE.getD []) ⊆ famFinset (fam.CE.getD [])) →
        hasKey (fpChecks af fam) "FP-2" = true) ∧
      ((¬ famFinset (fam.SE.getD []) ⊆ famFinset (fam.PE.getD [])) →
        hasKey (fpChecks af fam) "FP-3" = true) ∧
      (1 < (famFinset (fam.GE.getD [])).card → hasKey (fpChecks af fam) "FP-4" = true) ∧
      ((famFinset (fam.PE.getD [])).card = 0 → hasKey (fpChecks af fam) "FP-5" = true) ∧
      ((vget (fpChecks af fam) "FP-6").getD []).length =
        (fam.items.map (fun tf => (tf.2.filter (fp6Fails af)).length)).sum) := by
  constructor
  · intro hbad
    rcases hsch : verify_output_schema fam with _ | v
    · exfalso
      obtain ⟨t, ht, ls, hls, s, hs, a, ha, hbadv⟩ := hbad
      have hall := (schemaLoop_none_iff fam extTypes).mp hsch t ht
      rw [hls] at hall
      have := (schemaCheckTag_none_iff ls).mp hall a (List.mem_flatten.mpr ⟨s, hs, ha⟩)
      rw [hbadv] at this
      cases this
    · refine ⟨v, rfl, ?_, ?_⟩
      · unfold verify_fundamental_properties
        rw [hsch]
      · obtain ⟨t, ht, hsome⟩ := schemaLoop_some_source fam extTypes v hsch
        exact schemaCheckTag_some_keys _ v hsome
  · intro hgood
    have hnone : verify_output_schema fam = none := by
      apply (schemaLoop_none_iff fam extTypes).mpr
      intro t ht
      have hcheck : ∀ ls, fam.get t = some ls → schemaCheckTag (fam.get t) = none := by
        intro ls hls
        rw [hls, schemaCheckTag_none_iff]
        intro a ha
        obtain ⟨s, hs, has⟩ := List.mem_flatten.mp ha
        by_contra hb
        exact hgood ⟨t, ht, ls, hls, s, hs, a, has, by simpa using hb⟩
      simp only [extTypes, List.mem_cons, List.not_mem_nil, or_false] at ht
      rcases ht with rfl | rfl | rfl | rfl
      · obtain ⟨ls, hls⟩ := Option.isSome_iff_exists.mp hGE
        exact hcheck ls (by simp [RawFamily.get, hls])
      · obtain ⟨ls, hls⟩ := Option.isSome_iff_exists.mp hCE
        exact hcheck ls (by simp [RawFamily.get, hls])
      · obtain ⟨ls, hls⟩ := Option.isSome_iff_exists.mp hPE
        exact hcheck ls (by simp [RawFamily.get, hls])
      · obtain ⟨ls, hls⟩ := Option.isSome_iff_exists.mp hSE
        exact hcheck ls (by simp [RawFamily.get, hls])
    refine ⟨hnone, ?_, fpChecks_keys af fam, ?_, ?_, ?_, ?_, ?_, fpChecks_fp6_len af fam⟩
    · unfold verify_fundamental_properties
      rw [hnone]
    · intro hc
      simp [hasKey, fpChecks_fp1, hc]
    · intro hc
      simp [hasKey, fpChecks_fp2, hc]
    · intro hc
      simp [hasKey, fpChecks_fp3, hc]
    · intro hc
      simp [hasKey, fpChecks_fp4, hc]
    · intro hc
      simp [hasKey, fpChecks_fp5, hc]

/-- Witness for C4 (amended) at a concrete schema-valid family. -/
theorem c4_schema_gate_witness :
    ((RawFamily.mk (some [[Value.str "A1"]]) (some []) (some []) (some [])).GE.isSome = true) ∧
    (¬ hasBadElem (RawFamily.mk (some [[Value.str "A1"]]) (some []) (some []) (some [])) →
      verify_output_schema (RawFamily.mk (some [[Value.str "A1"]]) (some []) (some [])
        (some [])) = none ∧
      verify_fundamental_properties (AF.mk "w5" ["A1"] [])
          (RawFamily.mk (some [[Value.str "A1"]]) (some []) (some []) (some [])) =
        fpChecks (AF.mk "w5" ["A1"] [])
          (RawFamily.mk (some [[Value.str "A1"]]) (some []) (some []) (some [])) ∧
      (∀ p ∈ fpChecks (AF.mk "w5" ["A1"] [])
          (RawFamily.mk (some [[Value.str "A1"]]) (some []) (some []) (some [])),
        p.1 ∈ (["FP-1", "FP-2", "FP-3", "FP-4", "FP-5", "FP-6"] : List String)) ∧
      ((¬ famFinset (((RawFamily.mk (some [[Value.str "A1"]]) (some []) (some [])
            (some []))).GE.getD []) ⊆
          famFinset (((RawFamily.mk (some [[Value.str "A1"]]) (some []) (some [])
            (some []))).CE.getD [])) →
        hasKey (fpChecks (AF.mk "w5" ["A1"] [])
          (RawFamily.mk (some [[Value.str "A1"]]) (some []) (some []) (some []))) "FP-1" = true) ∧
      ((¬ famFinset (((RawFamily.mk (some [[Value.str "A1"]]) (some []) (some [])
            (some []))).PE.getD []) ⊆
          famFinset (((RawFamily.mk (some [[Value.str "A1"]]) (some []) (some [])
            (some []))).CE.getD [])) →
        hasKey (fpChecks (AF.mk "w5" ["A1"] [])
          (RawFamily.mk (some [[Value.str "A1"]]) (some []) (some []) (some []))) "FP-2" = true) ∧
      ((¬ famFinset (((RawFamily.mk (some [[Value.str "A1"]]) (some []) (some [])
            (some []))).SE.getD []) ⊆
          famFinset (((RawFamily.mk (some [[Value.str "A1"]]) (some []) (some [])
            (some []))).PE.getD [])) →
        hasKey (fpChecks (AF.mk "w5" ["A1"] [])
          (RawFamily.mk (some [[Value.str "A1"]]) (some []) (some []) (some []))) "FP-3" = true) ∧
      (1 < (famFinset (((RawFamily.mk (some [[Value.str "A1"]]) (some []) (some [])
            (some []))).GE.getD [])).card →
        hasKey (fpChecks (AF.mk "w5" ["A1"] [])
          (RawFamily.mk (some [[Value.str "A1"]]) (some []) (some []) (some []))) "FP-4" = true) ∧
      ((famFinset (((RawFamily.mk (some [[Value.str "A1"]]) (some []) (some [])
            (some []))).PE.getD [])).card = 0 →
        hasKey (fpChecks (AF.mk "w5" ["A1"] [])
          (RawFamily.mk (some [[Value.str "A1"]]) (some []) (some []) (some []))) "FP-5" = true) ∧
      ((vget (fpChecks (AF.mk "w5" ["A1"] [])
          (RawFamily.mk (some [[Value.str "A1"]]) (some []) (some []) (some []))) "FP-6").getD
        []).length =
        (((RawFamily.mk (some [[Value.str "A1"]]) (some []) (some [])
            (some []))).items.map
          (fun tf => (tf.2.filter (fp6Fails (AF.mk "w5" ["A1"] []))).length)).sum) :=
  ⟨rfl, (c4_schema_gate (AF.mk "w5" ["A1"] [])
    (RawFamily.mk (some [[Value.str "A1"]]) (some []) (some []) (some []))
    rfl rfl rfl rfl).2⟩

/-! ## Claim C5 -/

/-- C5: on a schema-valid family, `verify_fundamental_properties` reports
FP-1 iff the GE family (as a set of sets) is not contained in the CE family,
FP-2 iff PE is not contained in CE, FP-3 iff SE is not contained in PE, FP-4
iff more than one distinct grounded extension is reported, FP-5 iff no
preferred extension is reported, and one FP-6 message per reported extension
that contains an unresolvable name or is not conflict-free. -/
theorem c5_fp_characterization (af : AF) (fam : RawFamily)
    (hok : verify_output_schema fam = none) :
    (hasKey (verify_fundamental_properties af fam) "FP-1" = true ↔
      ¬ famFinset (fam.GE.getD []) ⊆ famFinset (fam.CE.getD [])) ∧
    (hasKey (verify_fundamental_properties af fam) "FP-2" = true ↔
      ¬ famFinset (fam.PE.getD []) ⊆ famFinset (fam.CE.getD [])) ∧
    (hasKey (verify_fundamental_properties af fam) "FP-3" = true ↔
      ¬ famFinset (fam.SE.getD []) ⊆ famFinset (fam.PE.getD [])) ∧
    (hasKey (verify_fundamental_properties af fam) "FP-4" = true ↔
      1 < (famFinset (fam.GE.getD [])).card) ∧
    (hasKey (verify_fundamental_properties af fam) "FP-5" = true ↔
      (famFinset (fam.PE.getD [])).card = 0) ∧
    (((vget (verify_fundamental_properties af fam) "FP-6").getD []).length =
      (fam.items.map (fun tf => (tf.2.filter (fp6Fails af)).length)).sum) ∧
    (∀ s : Extension, fp6Fails af s = true ↔
      (∃ a ∈ s, resolveValue af a = none) ∨
      (∃ args, resolveExt af s = some args ∧ is_conflict_free args af = false)) := by
  have hv : verify_fundamental_properties af fam = fpChecks af fam := by
    unfold verify_fundamental_properties
    rw [hok]
  rw [hv]
  refine ⟨?_, ?_, ?_, ?_, ?_, fpChecks_fp6_len af fam, fp6Fails_iff af⟩
  · by_cases hc : ¬ famFinset (fam.GE.getD []) ⊆ famFinset (fam.CE.getD []) <;>
      simp [hasKey, fpChecks_fp1, hc]
  · by_cases hc : ¬ famFinset (fam.PE.getD []) ⊆ famFinset (fam.CE.getD []) <;>
      simp [hasKey, fpChecks_fp2, hc]
  · by_cases hc : ¬ famFinset (fam.SE.getD []) ⊆ famFinset (fam.PE.getD []) <;>
      simp [hasKey, fpChecks_fp3, hc]
  · by_cases hc : 1 < (famFinset (fam.GE.getD [])).card <;>
      simp [hasKey, fpChecks_fp4, hc]
  · by_cases hc : (famFinset (fam.PE.getD [])).card = 0 <;>
      simp [hasKey, fpChecks_fp5, hc]

/-- Witness for C5 at a concrete schema-valid family on which FP-1, FP-5
fire and the FP-6 count is evaluated. -/
theorem c5_fp_characterization_witness :
    (verify_output_schema
      (RawFamily.mk (some [[Value.str "A1"]]) (some []) (some []) (some [])) = none) ∧
    (hasKey (verify_fundamental_properties (AF.mk "w5c" ["A1"] [])
        (RawFamily.mk (some [[Value.str "A1"]]) (some []) (some []) (some []))) "FP-1" = true ↔
      ¬ famFinset ([[Value.str "A1"]] : Family) ⊆ famFinset ([] : Family)) := by
  have h := c5_fp_characterization (AF.mk "w5c" ["A1"] [])
    (RawFamily.mk (some [[Value.str "A1"]]) (some []) (some []) (some [])) rfl
  exact ⟨rfl, h.1⟩

/-! ## Claims C6 and C7: modularity and fundamental-consistency relations -/

theorem vadd_ne_nil (v : VDict) (k m : String) : vadd v k m ≠ [] := by
  cases v with
  | nil => simp [vadd]
  | cons p rest =>
    rcases p with ⟨a, ms⟩
    simp only [vadd]
    split <;> simp

theorem fcExtend_len (sa tag : String) (v : VDict) (s : Extension) :
    ((vget (fcExtend sa tag v s) "MR-FC").getD []).length =
      ((vget v "MR-FC").getD []).length + (if Value.str sa ∈ s then 1 else 0) := by
  unfold fcExtend
  by_cases hm : Value.str sa ∈ s <;> simp [hm, vget_vadd_self]

theorem fcInner_len (sa tag : String) (ls : List Extension) :
    ∀ v, ((vget (ls.foldl (fcExtend sa tag) v) "MR-FC").getD []).length =
      ((vget v "MR-FC").getD []).length +
        (ls.filter (fun s => decide (Value.str sa ∈ s))).length := by
  induction ls with
  | nil => intro v; simp
  | cons s rest ih =>
    intro v
    rw [List.foldl_cons, ih, fcExtend_len]
    by_cases hm : Value.str sa ∈ s
    · simp [hm, List.filter_cons]
      omega
    · simp [hm, List.filter_cons]

theorem fcFold_len (sa : String) (t : RawFamily) :
    ((vget (fcFold sa t) "MR-FC").getD []).length =
      (t.items.map (fun tf =>
        (tf.2.filter (fun s => decide (Value.str sa ∈ s))).length)).sum := by
  unfold fcFold
  have hgen : ∀ (its : List (String × Family)) (v : VDict),
      ((vget (its.foldl (fun v tf => tf.2.foldl (fcExtend sa tf.1) v) v) "MR-FC").getD []).length =
        ((vget v "MR-FC").getD []).length +
          (its.map (fun tf =>
            (tf.2.filter (fun s => decide (Value.str sa ∈ s))).length)).sum := by
    intro its
    induction its with
    | nil => intro v; simp
    | cons tf rest ih =>
      intro v
      rw [List.foldl_cons, ih, fcInner_len]
      simp
      omega
  rw [hgen]
  simp [vget]

theorem fcInner_id (sa tag : String) (ls : List Extension)
    (hno : ∀ s ∈ ls, Value.str sa ∉ s) : ∀ v, ls.foldl (fcExtend sa tag) v = v := by
  induction ls with
  | nil => intro v; rfl
  | cons s rest ih =>
    intro v
    rw [List.foldl_cons]
    have h1 : fcExtend sa tag v s = v := by
      unfold fcExtend
      rw [if_neg (hno s (by simp))]
    rw [h1]
    exact ih (fun x hx => hno x (by simp [hx])) v

theorem fcFold_nil (sa : String) (t : RawFamily)
    (hno : ∀ tf ∈ t.items, ∀ s ∈ tf.2, Value.str sa ∉ s) : fcFold sa t = [] := by
  unfold fcFold
  have hgen : ∀ (its : List (String × Family)),
      (∀ tf ∈ its, ∀ s ∈ tf.2, Value.str sa ∉ s) →
      ∀ v : VDict, its.foldl (fun v tf => tf.2.foldl (fcExtend sa tf.1) v) v = v := by
    intro its
    induction its with
    | nil => intro _ v; rfl
    | cons tf rest ih =>
      intro hn v
      rw [List.foldl_cons, fcInner_id sa tf.1 tf.2 (hn tf (by simp)) v]
      exact ih (fun x hx => hn x (by simp [hx])) v
  exact hgen t.items hno []

theorem fcFold_ne_nil (sa : String) (t : RawFamily)
    (hyes : ∃ tf ∈ t.items, ∃ s ∈ tf.2, Value.str sa ∈ s) : fcFold sa t ≠ [] := by
  intro hnil
  have hlen := fcFold_len sa t
  rw [hnil] at hlen
  simp [vget] at hlen
  obtain ⟨tf, htf, s, hs, hmem⟩ := hyes
  have hpos : 0 < (tf.2.filter (fun s => decide (Value.str sa ∈ s))).length := by
    apply List.length_pos.mpr
    intro hempty
    have := List.filter_eq_nil_iff.mp hempty s hs
    simp [hmem] at this
  have hle : (tf.2.filter (fun s => decide (Value.str sa ∈ s))).length ≤
      (t.items.map (fun tf =>
        (tf.2.filter (fun s => decide (Value.str sa ∈ s))).length)).sum :=
    List.single_le_sum (by intro x hx; omega) _ (List.mem_map_of_mem _ htf)
  omega

/-- C7: on schema-valid inputs, `verify_fundamental_consistency` reports an
MR-FC violation exactly when the self-attacker's name occurs in some
extension of the transformed family under any tag, or the set of transformed
grounded extensions differs from the set of original grounded extensions;
when neither holds it returns the empty report. -/
theorem c7_fc_characterization (o t : RawFamily) (sa : String)
    (hok : verify_output_schema_metamorphic o t = none) :
    (verify_fundamental_consistency o t sa ≠ [] ↔
      (∃ tf ∈ t.items, ∃ s ∈ tf.2, Value.str sa ∈ s) ∨
        famFinset (o.GE.getD []) ≠ famFinset (t.GE.getD [])) := by
  have hbody : verify_fundamental_consistency o t sa =
      (if famFinset (o.GE.getD []) ≠ famFinset (t.GE.getD [])
       then vadd (fcFold sa t) "MR-FC" "MR-FC.2 Violation (GE): Original GE is not equal to transformed GE."
       else fcFold sa t) := by
    unfold verify_fundamental_consistency
    rw [hok]
  rw [hbody]
  by_cases hge : famFinset (o.GE.getD []) ≠ famFinset (t.GE.getD [])
  · rw [if_pos hge]
    exact iff_of_true (vadd_ne_nil _ _ _) (Or.inr hge)
  · rw [if_neg hge]
    constructor
    · intro hne
      rcases Classical.em (∃ tf ∈ t.items, ∃ s ∈ tf.2, Value.str sa ∈ s) with hA | hA
      · exact Or.inl hA
      · exfalso
        apply hne
        apply fcFold_nil
        intro tf htf s hs hmem
        exact hA ⟨tf, htf, s, hs, hmem⟩
    · rintro (hA | hB)
      · exact fcFold_ne_nil sa t hA
      · exact absurd hB hge

/-- Witness for C7: the self-attacker appears in the transformed GE, so the
report is nonempty. -/
theorem c7_fc_characterization_witness :
    (verify_output_schema_metamorphic
      (RawFamily.mk (some [[Value.str "A1"]]) (some []) (some []) (some []))
      (RawFamily.mk (some [[Value.str "A1", Value.str "SA"]]) (some []) (some []) (some [])) =
      none) ∧
    (verify_fundamental_consistency
      (RawFamily.mk (some [[Value.str "A1"]]) (some []) (some []) (some []))
      (RawFamily.mk (some [[Value.str "A1", Value.str "SA"]]) (some []) (some []) (some []))
      "SA" ≠ [] ↔
      (∃ tf ∈ (RawFamily.mk (some [[Value.str "A1", Value.str "SA"]]) (some []) (some [])
          (some [])).items, ∃ s ∈ tf.2, Value.str "SA" ∈ s) ∨
        famFinset ((RawFamily.mk (some [[Value.str "A1"]]) (some []) (some [])
          (some [])).GE.getD []) ≠
          famFinset ((RawFamily.mk (some [[Value.str "A1", Value.str "SA"]]) (some [])
            (some []) (some [])).GE.getD [])) :=
  ⟨rfl, c7_fc_characterization _ _ "SA" rfl⟩

/-- C6: on schema-valid inputs, `verify_modularity` reports no MR-MOD
violation exactly when (1) the (first-listed) transformed grounded extension
equals the original one with the new argument's name added, and (2) for each
of CE, PE, SE the transformed family equals the image of the original family
under adding the new argument to every extension. -/
theorem c6_modularity_characterization (o t : RawFamily) (u : String)
    (hok : verify_output_schema_metamorphic o t = none) :
    (verify_modularity o t u = [] ↔
      ((t.GE.getD []).headD []).toFinset = ((o.GE.getD []).headD [] ++ [Value.str u]).toFinset ∧
      ∀ tag ∈ (["CE", "PE", "SE"] : List String),
        (famFinset ((o.get tag).getD [])).image (fun s => insert (Value.str u) s) =
          famFinset ((t.get tag).getD [])) := by
  unfold verify_modularity
  rw [hok]
  simp only [List.foldl]
  by_cases h0 : ((t.GE.getD []).headD []).toFinset =
      ((o.GE.getD []).headD [] ++ [Value.str u]).toFinset <;>
    by_cases h1 : (famFinset ((o.get "CE").getD [])).image (fun s => insert (Value.str u) s) =
      famFinset ((t.get "CE").getD []) <;>
    by_cases h2 : (famFinset ((o.get "PE").getD [])).image (fun s => insert (Value.str u) s) =
      famFinset ((t.get "PE").getD []) <;>
    by_cases h3 : (famFinset ((o.get "SE").getD [])).image (fun s => insert (Value.str u) s) =
      famFinset ((t.get "SE").getD []) <;>
    simp [h0, h1, h2, h3, vadd_ne_nil]

/-- Witness for C6 at a concrete pair on which modularity holds. -/
theorem c6_modularity_characterization_witness :
    (verify_output_schema_metamorphic
      (RawFamily.mk (some [[Value.str "A1"]]) (some [[Value.str "A1"]]) (some []) (some []))
      (RawFamily.mk (some [[Value.str "A1", Value.str "U"]])
        (some [[Value.str "A1", Value.str "U"]]) (some []) (some [])) = none) ∧
    (verify_modularity
      (RawFamily.mk (some [[Value.str "A1"]]) (some [[Value.str "A1"]]) (some []) (some []))
      (RawFamily.mk (some [[Value.str "A1", Value.str "U"]])
        (some [[Value.str "A1", Value.str "U"]]) (some []) (some []))
      "U" = [] ↔
      (((RawFamily.mk (some [[Value.str "A1", Value.str "U"]])
          (some [[Value.str "A1", Value.str "U"]]) (some []) (some [])).GE.getD
          []).headD []).toFinset =
        (((RawFamily.mk (some [[Value.str "A1"]]) (some [[Value.str "A1"]]) (some [])
          (some [])).GE.getD []).headD [] ++ [Value.str "U"]).toFinset ∧
      ∀ tag ∈ (["CE", "PE", "SE"] : List String),
        (famFinset (((RawFamily.mk (some [[Value.str "A1"]]) (some [[Value.str "A1"]])
            (some []) (some [])).get tag).getD [])).image
            (fun s => insert (Value.str "U") s) =
          famFinset (((RawFamily.mk (some [[Value.str "A1", Value.str "U"]])
            (some [[Value.str "A1", Value.str "U"]]) (some []) (some [])).get tag).getD [])) :=
  ⟨rfl, c6_modularity_characterization _ _ "U" rfl⟩

/-! ## Claims C3 and C10: defense-dynamics verifier -/

/-- A key absent from every entry of a violation dict has no binding. -/
theorem vget_none_of_keys (v : VDict) (k : String) (h : ∀ p ∈ v, p.1 ≠ k) :
    vget v k = none := by
  induction v with
  | nil => rfl
  | cons p rest ih =>
    rcases p with ⟨a, ms⟩
    have ha : k ≠ a := fun hk => h (a, ms) (by simp) (by simp [hk])
    simp only [vget, if_neg ha]
    exact ih (fun q hq => h q (by simp [hq]))

theorem schemaCheckTagMeta_some_keys (o t : Option Family) (v : VDict)
    (h : schemaCheckTagMeta o t = some v) :
    ∀ p ∈ v, p.1 = "SCHEMA-ERROR" ∨ p.1 = "SCHEMA-VERIFICATION-FAILED" := by
  unfold schemaCheckTagMeta at h
  rcases ha : anySpaceOpt o with e | b
  · rw [ha] at h
    cases h
    intro p hp
    simp [vadd] at hp
    simp [hp]
  · rw [ha] at h
    cases b
    · rcases hb : anySpaceOpt t with e2 | b2
      · rw [hb] at h
        cases h
        intro p hp
        simp [vadd] at hp
        simp [hp]
      · rw [hb] at h
        cases b2
        · by_cases h1 : hasNonStr (o.getD []) <;> by_cases h2 : hasNonStr (t.getD []) <;>
            simp only [h1, h2, Bool.true_or, Bool.or_true, Bool.or_false, Bool.false_or,
              if_pos, if_neg, reduceCtorEq, Option.some.injEq] at h
          · subst h
            intro p hp
            simp [vadd] at hp
            simp [hp]
          · subst h
            intro p hp
            simp [vadd] at hp
            simp [hp]
          · subst h
            intro p hp
            simp [vadd] at hp
            simp [hp]
          · cases h
        · have hcv : some (vadd [] "SCHEMA-ERROR" msgSpace) = some v := h
          cases hcv
          intro p hp
          simp [vadd] at hp
          simp [hp]
    · have hcv2 : some (vadd [] "SCHEMA-ERROR" msgSpace) = some v := h
      cases hcv2
      intro p hp
      simp [vadd] at hp
      simp [hp]

theorem schemaLoopMeta_some_source (o t : RawFamily) : ∀ (ts : List String) (v : VDict),
    schemaLoopMeta o t ts = some v →
      ∃ tag ∈ ts, schemaCheckTagMeta (o.get tag) (t.get tag) = some v := by
  intro ts
  induction ts with
  | nil => intro v h; simp [schemaLoopMeta] at h
  | cons tag rest ih =>
    intro v h
    unfold schemaLoopMeta at h
    rcases hc : schemaCheckTagMeta (o.get tag) (t.get tag) with _ | w
    · rw [hc] at h
      obtain ⟨x, hx, hxs⟩ := ih v h
      exact ⟨x, by simp [hx], hxs⟩
    · rw [hc] at h
      cases h
      exact ⟨tag, by simp, hc⟩

/-- C3: on schema-valid inputs, when the target is absent from the (first
listed) original grounded extension, `verify_defense_dynamics` reports
MR-DD.3 exactly when the target's membership in the transformed grounded
extension differs from the condition that none of the target's recorded
direct attackers is a member of it; when the target is present in the
original grounded extension, MR-DD.3 is never reported. -/
theorem c3_dd3_characterization (o t : RawFamily) (defender attacker target : String)
    (targetAttackers : List String)
    (hok : verify_output_schema_metamorphic o t = none) :
    (Value.str target ∉ ((o.GE.getD [[]]).headD []).toFinset →
      (hasKey (verify_defense_dynamics o t defender attacker target targetAttackers)
          "MR-DD.3" = true ↔
        ¬ ((Value.str target ∈ ((t.GE.getD [[]]).headD []).toFinset) ↔
           (∀ a ∈ targetAttackers,
             Value.str a ∉ ((t.GE.getD [[]]).headD []).toFinset)))) ∧
    (Value.str target ∈ ((o.GE.getD [[]]).headD []).toFinset →
      hasKey (verify_defense_dynamics o t defender attacker target targetAttackers)
        "MR-DD.3" = false) := by
  unfold verify_defense_dynamics
  rw [hok]
  simp only []
  set O := ((o.GE.getD [[]]).headD []).toFinset with hO
  set T := ((t.GE.getD [[]]).headD []).toFinset with hT
  set v0 : VDict := if Value.str defender ∉ T then
      vadd [] "MR-DD.1" ("Defender " ++ defender ++ " not in new GE.") else [] with hv0
  set v1 : VDict := if Value.str attacker ∈ T then
      vadd v0 "MR-DD.2" ("Attacker " ++ attacker ++ " still in new GE.") else v0 with hv1
  have hv1none : vget v1 "MR-DD.3" = none := by
    rw [hv1, vget_ite_vadd_ne _ _ _ _ _ (by decide), hv0,
        vget_ite_vadd_ne _ _ _ _ _ (by decide)]
    rfl
  by_cases hprem : Value.str target ∈ O
  · refine ⟨fun hc => absurd hprem hc, fun _ => ?_⟩
    rw [if_neg (by simpa using hprem)]
    simp [hasKey, hv1none]
  · refine ⟨fun _ => ?_, fun hc => absurd hc hprem⟩
    rw [if_pos (by simpa using hprem)]
    rcases Classical.em (∀ a ∈ targetAttackers, Value.str a ∉ T) with hsh | hnsh <;>
      rcases Classical.em (Value.str target ∈ T) with his | his
    · have hb : targetAttackers.all (fun a => decide (Value.str a ∉ T)) = true := by
        rw [List.all_eq_true]
        intro a ha
        exact decide_eq_true (hsh a ha)
      have hd : decide (Value.str target ∈ T) = true := decide_eq_true his
      rw [if_neg (by simp only [hb, hd]; decide), if_neg (by simp only [hb, hd]; decide)]
      simp only [hasKey, hv1none]
      simp [his]
      exact hsh
    · have hb : targetAttackers.all (fun a => decide (Value.str a ∉ T)) = true := by
        rw [List.all_eq_true]
        intro a ha
        exact decide_eq_true (hsh a ha)
      have hd : decide (Value.str target ∈ T) = false := decide_eq_false his
      rw [if_neg (by simp only [hb, hd]; decide), if_pos (by simp only [hb, hd]; decide)]
      simp only [hasKey, vget_vadd_self]
      simp [his]
      exact hsh
    · have hex : ∃ a ∈ targetAttackers, Value.str a ∈ T := by
        push_neg at hnsh
        obtain ⟨a, ha, hin⟩ := hnsh
        exact ⟨a, ha, by simpa using hin⟩
      have hb : targetAttackers.all (fun a => decide (Value.str a ∉ T)) = false := by
        obtain ⟨a, ha, hin⟩ := hex
        rcases hall : targetAttackers.all (fun a => decide (Value.str a ∉ T)) with _ | _
        · rfl
        · have := of_decide_eq_true (List.all_eq_true.mp hall a ha)
          exact absurd hin this
      have hd : decide (Value.str target ∈ T) = true := decide_eq_true his
      rw [if_pos (by simp only [hb, hd]; decide), if_neg (by simp only [hb, hd]; decide)]
      simp only [hasKey, vget_vadd_self]
      simp [his]
      obtain ⟨a, ha, hin⟩ := hex
      exact ⟨a, ha, hin⟩
    · have hex : ∃ a ∈ targetAttackers, Value.str a ∈ T := by
        push_neg at hnsh
        obtain ⟨a, ha, hin⟩ := hnsh
        exact ⟨a, ha, by simpa using hin⟩
      have hb : targetAttackers.all (fun a => decide (Value.str a ∉ T)) = false := by
        obtain ⟨a, ha, hin⟩ := hex
        rcases hall : targetAttackers.all (fun a => decide (Value.str a ∉ T)) with _ | _
        · rfl
        · have := of_decide_eq_true (List.all_eq_true.mp hall a ha)
          exact absurd hin this
      have hd : decide (Value.str target ∈ T) = false := decide_eq_false his
      rw [if_neg (by simp only [hb, hd]; decide), if_neg (by simp only [hb, hd]; decide)]
      simp only [hasKey, hv1none]
      simp [his]
      obtain ⟨a, ha, hin⟩ := hex
      exact ⟨a, ha, hin⟩

/-- C10 counterexample: with the `GE` key absent from both inputs (all
present elements schema-clean), `verify_defense_dynamics` does not reach the
MR-DD checks at all: the metamorphic schema gate already fails with
`SCHEMA-VERIFICATION-FAILED` (iterating `None` raises `TypeError`), so no
MR-DD.1 violation is produced — the `.get('GE', [[]])` default is dead for
absent keys. -/
theorem c10_counterexample :
    (∀ tg ∈ extTypes,
      ∀ s ∈ ((RawFamily.mk none (some []) (some []) (some [])).get tg).getD [],
        ∀ a ∈ s, badValue a = false) ∧
    verify_defense_dynamics (RawFamily.mk none (some []) (some []) (some []))
      (RawFamily.mk none (some []) (some []) (some [])) "M_Defender" "A1" "T" ["A1"] =
      [("SCHEMA-VERIFICATION-FAILED", [msgSVF])] ∧
    hasKey (verify_defense_dynamics (RawFamily.mk none (some []) (some []) (some []))
      (RawFamily.mk none (some []) (some []) (some [])) "M_Defender" "A1" "T" ["A1"])
      "MR-DD.1" = false :=
  ⟨by decide, rfl, rfl⟩

/-- C10 (amended): when the `GE` key is absent in either input,
`verify_defense_dynamics` returns the metamorphic schema-check report (it
never raises), which contains no MR-DD key; when the inputs pass the schema
check and the first listed transformed grounded extension defaults to the
empty set (absent first extension or empty family), MR-DD.1 is always
reported for the defender and MR-DD.2 never fires. -/
theorem c10_first_ge_default (o t : RawFamily) (defender attacker target : String)
    (targetAttackers : List String) :
    ((o.GE = none ∨ t.GE = none) →
      ∃ v, verify_output_schema_metamorphic o t = some v ∧
        verify_defense_dynamics o t defender attacker target targetAttackers = v ∧
        hasKey v "MR-DD.1" = false ∧ hasKey v "MR-DD.2" = false) ∧
    (verify_output_schema_metamorphic o t = none →
      (t.GE.getD [[]]).headD [] = [] →
      hasKey (verify_defense_dynamics o t defender attacker target targetAttackers)
        "MR-DD.1" = true ∧
      hasKey (verify_defense_dynamics o t defender attacker target targetAttackers)
        "MR-DD.2" = false) := by
  constructor
  · intro hab
    have hGEcheck : ∃ w, schemaCheckTagMeta (o.get "GE") (t.get "GE") = some w := by
      have htge : t.get "GE" = t.GE := rfl
      rcases hab with h | h
      · refine ⟨vadd [] "SCHEMA-VERIFICATION-FAILED" msgSVF, ?_⟩
        have hoge : o.get "GE" = none := by
          show o.GE = none
          exact h
        rw [hoge]
        rfl
      · rcases hA : anySpaceOpt (o.get "GE") with e | b
        · refine ⟨vadd [] "SCHEMA-VERIFICATION-FAILED" msgSVF, ?_⟩
          unfold schemaCheckTagMeta
          rw [hA]
        · cases b
          · refine ⟨vadd [] "SCHEMA-VERIFICATION-FAILED" msgSVF, ?_⟩
            unfold schemaCheckTagMeta
            rw [hA, show t.get "GE" = none from by rw [htge, h]]
            rfl
          · refine ⟨vadd [] "SCHEMA-ERROR" msgSpace, ?_⟩
            unfold schemaCheckTagMeta
            rw [hA]
    obtain ⟨w, hw⟩ := hGEcheck
    have hmeta : verify_output_schema_metamorphic o t = some w := by
      unfold verify_output_schema_metamorphic extTypes schemaLoopMeta
      rw [hw]
    have hkeys := schemaCheckTagMeta_some_keys _ _ w hw
    have hdd1 : vget w "MR-DD.1" = none := by
      apply vget_none_of_keys
      intro p hp
      rcases hkeys p hp with h | h <;> simp [h]
    have hdd2 : vget w "MR-DD.2" = none := by
      apply vget_none_of_keys
      intro p hp
      rcases hkeys p hp with h | h <;> simp [h]
    refine ⟨w, hmeta, ?_, ?_, ?_⟩
    · unfold verify_defense_dynamics
      rw [hmeta]
    · simp [hasKey, hdd1]
    · simp [hasKey, hdd2]
  · intro hok hempty
    unfold verify_defense_dynamics
    rw [hok]
    simp only []
    set T := ((t.GE.getD [[]]).headD []).toFinset with hTd
    have hTe : T = (∅ : Finset Value) := by
      rw [hTd, hempty]
      rfl
    rw [if_pos (show Value.str defender ∉ T from by simp [hTe]),
        if_neg (show ¬ Value.str attacker ∈ T from by simp [hTe])]
    have hb : targetAttackers.all (fun a => decide (Value.str a ∉ T)) = true := by
      rw [List.all_eq_true]
      intro a ha
      exact decide_eq_true (by simp [hTe])
    have hd : decide (Value.str target ∈ T) = false :=
      decide_eq_false (by simp [hTe])
    by_cases hprem : Value.str target ∉ ((o.GE.getD [[]]).headD []).toFinset
    · rw [if_pos (by simpa using hprem),
          if_neg (by simp only [hb, hd]; decide), if_pos (by simp only [hb, hd]; decide)]
      constructor
      · unfold hasKey
        rw [vget_vadd_ne _ _ _ _ (by decide), vget_vadd_self]
        rfl
      · unfold hasKey
        rw [vget_vadd_ne _ _ _ _ (by decide), vget_vadd_ne _ _ _ _ (by decide)]
        rfl
    · rw [if_neg (by simpa using hprem)]
      constructor
      · unfold hasKey
        rw [vget_vadd_self]
        rfl
      · unfold hasKey
        rw [vget_vadd_ne _ _ _ _ (by decide)]
        rfl

/-- Witness for C10 (amended): both parts at concrete inputs — an absent GE
key (part one) relies on `c10_first_ge_default` applied with the left
disjunct. -/
theorem c10_first_ge_default_witness :
    (((RawFamily.mk none (some []) (some []) (some [])).GE = none ∨
      (RawFamily.mk none (some []) (some []) (some [])).GE = none) →
      ∃ v, verify_output_schema_metamorphic (RawFamily.mk none (some []) (some []) (some []))
          (RawFamily.mk none (some []) (some []) (some [])) = some v ∧
        verify_defense_dynamics (RawFamily.mk none (some []) (some []) (some []))
          (RawFamily.mk none (some []) (some []) (some [])) "M_Defender" "A1" "T" ["A1"] = v ∧
        hasKey v "MR-DD.1" = false ∧ hasKey v "MR-DD.2" = false) ∧
    (∃ v, verify_output_schema_metamorphic (RawFamily.mk none (some []) (some []) (some []))
        (RawFamily.mk none (some []) (some []) (some [])) = some v ∧
      verify_defense_dynamics (RawFamily.mk none (some []) (some []) (some []))
        (RawFamily.mk none (some []) (some []) (some [])) "M_Defender" "A1" "T" ["A1"] = v ∧
      hasKey v "MR-DD.1" = false ∧ hasKey v "MR-DD.2" = false) ∧
    (hasKey (verify_defense_dynamics
        (RawFamily.mk (some [[]]) (some []) (some []) (some []))
        (RawFamily.mk (some []) (some []) (some []) (some []))
        "M_Defender" "A1" "T" ["A1"]) "MR-DD.1" = true ∧
      hasKey (verify_defense_dynamics
        (RawFamily.mk (some [[]]) (some []) (some []) (some []))
        (RawFamily.mk (some []) (some []) (some []) (some []))
        "M_Defender" "A1" "T" ["A1"]) "MR-DD.2" = false) := by
  have h1 := (c10_first_ge_default (RawFamily.mk none (some []) (some []) (some []))
    (RawFamily.mk none (some []) (some []) (some [])) "M_Defender" "A1" "T" ["A1"]).1
  have h2 := (c10_first_ge_default (RawFamily.mk (some [[]]) (some []) (some []) (some []))
    (RawFamily.mk (some []) (some []) (some []) (some [])) "M_Defender" "A1" "T" ["A1"]).2
  exact ⟨h1, h1 (Or.inl rfl), h2 rfl rfl⟩

/-- Witness for C3 at a concrete pair: the target is out of the original GE
and reinstated in the transformed GE with no attacker present. -/
theorem c3_dd3_characterization_witness :
    (verify_output_schema_metamorphic
      (RawFamily.mk (some [[]]) (some []) (some []) (some []))
      (RawFamily.mk (some [[Value.str "M_Defender", Value.str "T"]]) (some []) (some [])
        (some [])) = none) ∧
    ((Value.str "T" ∉ (((RawFamily.mk (some [[]]) (some []) (some [])
          (some [])).GE.getD [[]]).headD []).toFinset →
        (hasKey (verify_defense_dynamics
            (RawFamily.mk (some [[]]) (some []) (some []) (some []))
            (RawFamily.mk (some [[Value.str "M_Defender", Value.str "T"]]) (some [])
              (some []) (some [])) "M_Defender" "A1" "T" ["A1"]) "MR-DD.3" = true ↔
          ¬ ((Value.str "T" ∈
              (((RawFamily.mk (some [[Value.str "M_Defender", Value.str "T"]]) (some [])
                (some []) (some [])).GE.getD [[]]).headD []).toFinset) ↔
            (∀ a ∈ (["A1"] : List String),
              Value.str a ∉
                (((RawFamily.mk (some [[Value.str "M_Defender", Value.str "T"]]) (some [])
                  (some []) (some [])).GE.getD [[]]).headD []).toFinset)))) ∧
      (Value.str "T" ∈ (((RawFamily.mk (some [[]]) (some []) (some [])
          (some [])).GE.getD [[]]).headD []).toFinset →
        hasKey (verify_defense_dynamics
            (RawFamily.mk (some [[]]) (some []) (some []) (some []))
            (RawFamily.mk (some [[Value.str "M_Defender", Value.str "T"]]) (some [])
              (some []) (some [])) "M_Defender" "A1" "T" ["A1"]) "MR-DD.3" = false)) :=
  ⟨rfl, c3_dd3_characterization _ _ "M_Defender" "A1" "T" ["A1"] rfl⟩

end AFHarness
